import Mathlib

/-
  Verification of the "arts" multiplayer color-dart game server.

  Shallow embedding of the server-side game logic:
    - colorUtils.js       (mixColors, calculateColorDistance, rgbToHsl, hslToRgb)
    - Room.js             (Room state machine, processDartThrow, calculateHitColor, hsvToRgb)
    - GameManager.js      (room registry, player -> room index, join/create/start/remove)
    - gameRenderer.js     (client-side getColorAtPosition radius check)

  Conventions of the embedding:
    - JS numbers are modelled as rationals (ℚ); color channels, once rounded,
      are integers (ℤ).
    - `Math.round x` is modelled as `jround x = ⌊x + 1/2⌋` (JS rounds half toward +∞).
    - The JS `%` operator on nonnegative operands is `jsMod a b = a - b * ⌊a / b⌋`
      (for a ≥ 0, b > 0 this coincides with the JS truncated remainder).
    - JS `Map` objects are modelled as insertion-ordered association lists with
      `mapGet` / `mapSet` / `mapDelete` mirroring `Map.get` / `Map.set` / `Map.delete`
      (`mapSet` replaces in place on an existing key, appends otherwise).
    - Random outcomes (generated room codes, generated target colors) and
      environment values (uuid, timestamp) are parameters of the operations.
    - `Math.sqrt d ≤ tol` (the win check) is modelled by the equivalent decidable
      predicate `0 ≤ tol ∧ d ≤ tol * tol`; the equivalence with the real square
      root is proved in `sqrt_cast_le_iff`.
-/

/-- JS Math.round: rounds to nearest integer, halves toward +∞. -/
def jround (x : ℚ) : ℤ := ⌊x + 1/2⌋

/-- JS remainder `a % b` for a ≥ 0 < b (equals the truncated remainder there). -/
def jsMod (a b : ℚ) : ℚ := a - b * (⌊a / b⌋ : ℚ)

/-- An RGB color record `{r, g, b}` with integer channels (as produced by the
rounding conversion functions of colorUtils.js). -/
structure Color where
  r : ℤ
  g : ℤ
  b : ℤ
deriving DecidableEq, Repr

/-- An HSL record `{h, s, l}` as returned by rgbToHsl (integer components). -/
structure HSL where
  h : ℤ
  s : ℤ
  l : ℤ
deriving DecidableEq, Repr

/-- Channels of a color are integers in [0, 255]. -/
def Color.valid (c : Color) : Prop :=
  0 ≤ c.r ∧ c.r ≤ 255 ∧ 0 ≤ c.g ∧ c.g ≤ 255 ∧ 0 ≤ c.b ∧ c.b ≤ 255

instance : DecidablePred Color.valid := fun c => by
  unfold Color.valid; infer_instance

/-- Embeds colorUtils.js `mixColors(color1, color2, weight)`:
per-channel linear interpolation `round(c1 * (1-w) + c2 * w)`.
(The JS default weight 0.5 is never used by the game logic, which passes 0.3.) -/
def mixColors (color1 color2 : Color) (weight : ℚ) : Color :=
  let w1 : ℚ := 1 - weight
  let w2 : ℚ := weight
  { r := jround ((color1.r : ℚ) * w1 + (color2.r : ℚ) * w2)
    g := jround ((color1.g : ℚ) * w1 + (color2.g : ℚ) * w2)
    b := jround ((color1.b : ℚ) * w1 + (color2.b : ℚ) * w2) }

/-- Embeds the radicand of colorUtils.js `calculateColorDistance(color1, color2)`:
the source returns `Math.sqrt (dr*dr + dg*dg + db*db)`; we keep the (integer)
sum of squares and compare against the squared tolerance where the source
compares the square root against the tolerance. -/
def colorDistSq (color1 color2 : Color) : ℤ :=
  (color1.r - color2.r) * (color1.r - color2.r) +
  (color1.g - color2.g) * (color1.g - color2.g) +
  (color1.b - color2.b) * (color1.b - color2.b)

/-- Decidable form of `calculateColorDistance c1 c2 ≤ tol` (see `sqrt_cast_le_iff`). -/
def withinTolerance (color1 color2 : Color) (tol : ℚ) : Bool :=
  decide (0 ≤ tol ∧ ((colorDistSq color1 color2 : ℚ) ≤ tol * tol))

/-- Embeds the `hue2rgb` helper inside colorUtils.js `hslToRgb`. -/
def hue2rgb (p q t0 : ℚ) : ℚ :=
  let t1 : ℚ := if t0 < 0 then t0 + 1 else t0
  let t : ℚ := if t1 > 1 then t1 - 1 else t1
  if t < 1/6 then p + (q - p) * 6 * t
  else if t < 1/2 then q
  else if t < 2/3 then p + (q - p) * (2/3 - t) * 6
  else p

/-- Embeds colorUtils.js `hslToRgb(h, s, l)` (h in [0,360], s,l in [0,100]). -/
def hslToRgb (h s l : ℚ) : Color :=
  let hn : ℚ := h / 360
  let sn : ℚ := s / 100
  let ln : ℚ := l / 100
  if sn = 0 then
    { r := jround (ln * 255), g := jround (ln * 255), b := jround (ln * 255) }
  else
    let q : ℚ := if ln < 1/2 then ln * (1 + sn) else ln + sn - ln * sn
    let p : ℚ := 2 * ln - q
    { r := jround (hue2rgb p q (hn + 1/3) * 255)
      g := jround (hue2rgb p q hn * 255)
      b := jround (hue2rgb p q (hn - 1/3) * 255) }

/-- Embeds colorUtils.js `rgbToHsl(r, g, b)` (integer channels in, integer HSL out).
The JS `switch (max)` matches `case r` first, then `case g`, then `case b`. -/
def rgbToHsl (r g b : ℤ) : HSL :=
  let rn : ℚ := (r : ℚ) / 255
  let gn : ℚ := (g : ℚ) / 255
  let bn : ℚ := (b : ℚ) / 255
  let mx : ℚ := max (max rn gn) bn
  let mn : ℚ := min (min rn gn) bn
  let l : ℚ := (mx + mn) / 2
  if mx = mn then
    { h := 0, s := 0, l := jround (l * 100) }
  else
    let d : ℚ := mx - mn
    let s : ℚ := if l > 1/2 then d / (2 - mx - mn) else d / (mx + mn)
    let h0 : ℚ :=
      if mx = rn then (gn - bn) / d + (if gn < bn then 6 else 0)
      else if mx = gn then (bn - rn) / d + 2
      else (rn - gn) / d + 4
    { h := jround (h0 / 6 * 360), s := jround (s * 100), l := jround (l * 100) }

/-- Embeds Room.js `hsvToRgb(h, s, v)` (h in [0,360), s,v in [0,1]). -/
def hsvToRgb (h s v : ℚ) : Color :=
  let c : ℚ := v * s
  let x : ℚ := c * (1 - |jsMod (h / 60) 2 - 1|)
  let m : ℚ := v - c
  let rgb : ℚ × ℚ × ℚ :=
    if 0 ≤ h ∧ h < 60 then (c, x, 0)
    else if 60 ≤ h ∧ h < 120 then (x, c, 0)
    else if 120 ≤ h ∧ h < 180 then (0, c, x)
    else if 180 ≤ h ∧ h < 240 then (0, x, c)
    else if 240 ≤ h ∧ h < 300 then (x, 0, c)
    else (c, 0, x)
  { r := jround ((rgb.1 + m) * 255)
    g := jround ((rgb.2.1 + m) * 255)
    b := jround ((rgb.2.2 + m) * 255) }

/-- Embeds Room.js `calculateHitColor(position)`.  The source computes
`hue = ((atan2(z, x) * 180 / π) + 360) % 360` and `distance = sqrt(x² + z²)`
from the landing position; those two transcendental quantities are taken here
as the function's arguments (for every real position, hue lands in [0, 360)
and distance is nonnegative).  The remainder of the source is rational:
`saturation = min(distance / 2, 1)`, full brightness, then hsvToRgb.
Note the source has no radius check and no null branch: it returns a color
for every position. -/
def calculateHitColor (hue distance : ℚ) : Color :=
  let saturation : ℚ := min (distance / 2) 1
  let brightness : ℚ := 1
  hsvToRgb hue saturation brightness

/-- Embeds gameRenderer.js `getColorAtPosition(position)` (client resolver).
The source first rejects positions with `sqrt(x² + y²) > 3` (dartboardRadius),
returning null; we state the guard equivalently as `x² + y² > 9`.  Inside the
radius it raycasts against the rendered dartboard meshes; the raycast outcome
(a sampled color, or null when no mesh is hit) is taken as the `raycast`
argument. -/
def getColorAtPosition (x y : ℚ) (raycast : Option Color) : Option Color :=
  if x * x + y * y > 9 then none else raycast

/-- Association-list model of a JS `Map` with string keys: `Map.get`. -/
def mapGet {α : Type} (m : List (String × α)) (k : String) : Option α :=
  match m with
  | [] => none
  | (k', v) :: rest => if k' = k then some v else mapGet rest k

/-- Association-list model of `Map.set`: replaces in place on an existing key
(JS Maps keep the original insertion position), appends otherwise. -/
def mapSet {α : Type} (m : List (String × α)) (k : String) (v : α) :
    List (String × α) :=
  match m with
  | [] => [(k, v)]
  | (k', v') :: rest => if k' = k then (k', v) :: rest else (k', v') :: mapSet rest k v

/-- Association-list model of `Map.delete`. -/
def mapDelete {α : Type} (m : List (String × α)) (k : String) :
    List (String × α) :=
  m.filter (fun e => e.1 ≠ k)

/-- A player record as built by Room.js `addPlayer`. -/
structure Player where
  id : String
  name : String
  isHost : Bool
  isReady : Bool
  throwCount : ℕ
  currentColor : Color
  score : ℤ
deriving DecidableEq, Repr

/-- Room game settings (Room.js constructor defaults: tolerance 30, maxThrows 10,
dartSpeed 50, difficulty "medium"). -/
structure GameSettings where
  colorTolerance : ℚ
  maxThrows : ℚ
  dartSpeed : ℚ
  difficulty : String
deriving DecidableEq, Repr

/-- Default game settings from the Room.js constructor. -/
def defaultSettings : GameSettings :=
  { colorTolerance := 30, maxThrows := 10, dartSpeed := 50, difficulty := "medium" }

/-- Room phase: `waiting`, `playing` or `finished`. -/
inductive GamePhase
  | waiting
  | playing
  | finished
deriving DecidableEq, Repr

/-- Client throw payload as read by Room.js `processDartThrow`.
`hitColor` distinguishes the three JS cases: `none` = field absent (undefined,
server resolves the color itself), `some none` = explicit null (client-reported
miss), `some (some c)` = client-supplied color.  The landing position enters
the server resolver only through its polar data (see `calculateHitColor`);
`hueAtPosition` and `distAtPosition` carry that data.  `trajectory` is opaque
to the coordinator and passed through. -/
structure ThrowData where
  hitColor : Option (Option Color)
  hueAtPosition : ℚ
  distAtPosition : ℚ
  trajectory : ℕ
deriving DecidableEq, Repr

/-- Immutable throw log entry (Room.js `throwRecord`).  On a miss the source
stores the player's pre-throw color in `newColor` (possibly undefined when the
color map has no entry, hence `Option`). -/
structure ThrowRecord where
  id : ℕ
  playerId : String
  timestamp : ℤ
  hitColor : Option Color
  newColor : Option Color
  trajectory : ℕ
  hitBoard : Bool
deriving DecidableEq, Repr

/-- Result record returned by Room.js `processDartThrow`. -/
structure ThrowResult where
  throwRec : ThrowRecord
  newColor : Option Color
  colorChanged : Bool
  winner : Option Player
  finalColor : Option Color
deriving DecidableEq, Repr

/-- The Room aggregate (Room.js fields). -/
structure Room where
  roomCode : String
  hostId : String
  players : List (String × Player)
  gameState : GamePhase
  targetColor : Color
  playerColors : List (String × Color)
  currentTurn : ℕ
  turnOrder : List String
  throws : List ThrowRecord
  gameSettings : GameSettings
deriving DecidableEq, Repr

/-- Embeds Room.js `addPlayer(playerId, playerName)`. -/
def Room.addPlayer (room : Room) (playerId playerName : String) : Room × Player :=
  let player : Player :=
    { id := playerId
      name := playerName
      isHost := playerId = room.hostId
      isReady := false
      throwCount := 0
      currentColor := { r := 0, g := 0, b := 0 }
      score := 0 }
  ({ room with
      players := mapSet room.players playerId player
      playerColors := mapSet room.playerColors playerId player.currentColor },
   player)

/-- Embeds the Room.js constructor `new Room(roomCode, hostId, hostName)`.
The randomly generated target color is a parameter. -/
def Room.create (roomCode hostId hostName : String) (targetColor : Color) : Room :=
  let base : Room :=
    { roomCode := roomCode
      hostId := hostId
      players := []
      gameState := .waiting
      targetColor := targetColor
      playerColors := []
      currentTurn := 0
      turnOrder := []
      throws := []
      gameSettings := defaultSettings }
  (base.addPlayer hostId hostName).1

/-- Embeds Room.js `removePlayer(playerId)`: delete the player and its color
entry, transfer host to the first remaining player if the host left, filter the
turn order, and reset `currentTurn` to 0 when it falls off the end. -/
def Room.removePlayer (room : Room) (playerId : String) : Room :=
  let players1 := mapDelete room.players playerId
  let colors1 := mapDelete room.playerColors playerId
  let (hostId', players2) :=
    if playerId = room.hostId ∧ players1 ≠ [] then
      match players1 with
      | [] => (room.hostId, players1)
      | (nk, nv) :: rest => (nv.id, (nk, { nv with isHost := true }) :: rest)
    else (room.hostId, players1)
  let turnOrder' := room.turnOrder.filter (fun id => id ≠ playerId)
  let currentTurn' := if room.currentTurn ≥ turnOrder'.length then 0 else room.currentTurn
  { room with
      players := players2
      playerColors := colors1
      hostId := hostId'
      turnOrder := turnOrder'
      currentTurn := currentTurn' }

/-- Embeds Room.js `startGame(targetColor)`: phase to playing, snapshot turn
order from current player keys, reset turn/throws, and reset every player's
throw count, color (to gray 128) and score, mirroring into playerColors. -/
def Room.startGame (room : Room) (targetColor : Color) : Room :=
  let resetPlayer : Player → Player := fun p =>
    { p with throwCount := 0, currentColor := { r := 128, g := 128, b := 128 }, score := 0 }
  let players' := room.players.map (fun e => (e.1, resetPlayer e.2))
  let playerColors' :=
    players'.foldl (fun m e => mapSet m e.1 e.2.currentColor) room.playerColors
  { room with
      gameState := .playing
      targetColor := targetColor
      turnOrder := room.players.map Prod.fst
      currentTurn := 0
      throws := []
      players := players'
      playerColors := playerColors' }

/-- Embeds Room.js `getCurrentPlayer()`. -/
def Room.getCurrentPlayer (room : Room) : Option String :=
  if room.turnOrder.length = 0 then none
  else room.turnOrder.get? room.currentTurn

/-- Resolution of the throw's hit color at the top of `processDartThrow`:
use the client-provided `hitColor` when the field is present (null meaning
miss); only call `calculateHitColor` when it is absent (undefined). -/
def resolveHitColor (td : ThrowData) : Option Color :=
  match td.hitColor with
  | some hc => hc
  | none => some (calculateHitColor td.hueAtPosition td.distAtPosition)

/-- Embeds Room.js `processDartThrow(playerId, throwData)`.  Returns `none`
where the source throws ("Player not found") or would mix with an undefined
current color (color-map entry missing while the dart hit the board; the
source would produce NaN channels there).  The uuid and timestamp of the
throw record are parameters. -/
def Room.processDartThrow (room : Room) (playerId : String) (td : ThrowData)
    (throwId : ℕ) (timestamp : ℤ) : Option (Room × ThrowResult) :=
  match mapGet room.players playerId with
  | none => none
  | some player =>
    let hitColor : Option Color := resolveHitColor td
    let current0 : Option Color := mapGet room.playerColors playerId
    match hitColor with
    | some hc =>
      match current0 with
      | none => none
      | some currentColor =>
        let newColor := mixColors currentColor hc (3/10)
        let player' : Player :=
          { player with currentColor := newColor, throwCount := player.throwCount + 1 }
        let record : ThrowRecord :=
          { id := throwId
            playerId := playerId
            timestamp := timestamp
            hitColor := some hc
            newColor := some newColor
            trajectory := td.trajectory
            hitBoard := true }
        let won := withinTolerance newColor room.targetColor room.gameSettings.colorTolerance
        let winner : Option Player := if won then some player' else none
        let finalColor : Option Color := if won then some newColor else none
        let room' : Room :=
          { room with
              players := mapSet room.players playerId player'
              playerColors := mapSet room.playerColors playerId newColor
              throws := room.throws ++ [record]
              gameState := if won then .finished else room.gameState
              currentTurn :=
                if won then room.currentTurn
                else (room.currentTurn + 1) % room.turnOrder.length }
        some (room',
          { throwRec := record
            newColor := some newColor
            colorChanged := true
            winner := winner
            finalColor := finalColor })
    | none =>
      let player' : Player := { player with throwCount := player.throwCount + 1 }
      let record : ThrowRecord :=
        { id := throwId
          playerId := playerId
          timestamp := timestamp
          hitColor := none
          newColor := current0
          trajectory := td.trajectory
          hitBoard := false }
      let room' : Room :=
        { room with
            players := mapSet room.players playerId player'
            throws := room.throws ++ [record]
            currentTurn := (room.currentTurn + 1) % room.turnOrder.length }
      some (room',
        { throwRec := record
          newColor := none
          colorChanged := false
          winner := none
          finalColor := none })

/-- Embeds Room.js `updateSettings(settings)` restricted to a tolerance update
(the shallow merge `{ ...this.gameSettings, ...settings }` at the field level). -/
def Room.updateTolerance (room : Room) (tol : ℚ) : Room :=
  { room with gameSettings := { room.gameSettings with colorTolerance := tol } }

/-- Error outcomes of the GameManager operations (each corresponds to a
distinct `{ success: false, message }` result in GameManager.js). -/
inductive OpError
  | roomNotFound
  | roomFull
  | gameInProgress
  | notHost
  | insufficientPlayers
  | gameNotInProgress
  | notYourTurn
deriving DecidableEq, Repr

/-- The GameManager (coordinator): room registry and the player->room index. -/
structure GameManager where
  rooms : List (String × Room)
  playerRooms : List (String × String)
deriving DecidableEq, Repr

/-- The freshly constructed GameManager (both maps empty). -/
def GameManager.empty : GameManager := { rooms := [], playerRooms := [] }

/-- Embeds GameManager.js `createRoom(playerId, playerName)`.  The outcome of
`generateRoomCode()` and the room's generated target color are parameters.
Note the source performs no collision check before `rooms.set(roomCode, room)`:
an existing room under the same code is silently replaced. -/
def GameManager.createRoom (gm : GameManager) (playerId playerName : String)
    (roomCode : String) (targetColor : Color) :
    GameManager × String × Option Player :=
  let room := Room.create roomCode playerId playerName targetColor
  ({ rooms := mapSet gm.rooms roomCode room
     playerRooms := mapSet gm.playerRooms playerId roomCode },
   roomCode,
   mapGet room.players playerId)

/-- Embeds GameManager.js `findAvailableRoom()`: first waiting room under
capacity, in registry iteration order. -/
def GameManager.findAvailableRoom (gm : GameManager) : Option String :=
  (gm.rooms.find? (fun e => e.2.players.length < 4 ∧ e.2.gameState = .waiting)).map
    Prod.fst

/-- Result of `joinRoom`. -/
inductive JoinResult
  | ok (roomCode : String) (player : Option Player)
  | err (e : OpError)
deriving DecidableEq, Repr

/-- Embeds GameManager.js `joinRoom(playerId, playerName, roomCode)`.
`roomCode = none` models the falsy no-code path: find an available room, or
fall back to `createRoom` (with generator outcome `freshCode` and generated
target `freshTarget`).  With a code: room-not-found, room-full (≥ 4 players)
and game-in-progress (phase ≠ waiting) checks, in source order, then add. -/
def GameManager.joinRoom (gm : GameManager) (playerId playerName : String)
    (roomCode : Option String) (freshCode : String) (freshTarget : Color) :
    GameManager × JoinResult :=
  let go : String → GameManager × JoinResult := fun code =>
    match mapGet gm.rooms code with
    | none => (gm, .err .roomNotFound)
    | some room =>
      if room.players.length ≥ 4 then (gm, .err .roomFull)
      else if room.gameState ≠ .waiting then (gm, .err .gameInProgress)
      else
        let rp := room.addPlayer playerId playerName
        ({ rooms := mapSet gm.rooms code rp.1
           playerRooms := mapSet gm.playerRooms playerId code },
         .ok code (some rp.2))
  match roomCode with
  | some code => go code
  | none =>
    match gm.findAvailableRoom with
    | some code => go code
    | none =>
      let r := gm.createRoom playerId playerName freshCode freshTarget
      (r.1, .ok r.2.1 r.2.2)

/-- Result of `startGame`. -/
inductive StartResult
  | ok
  | err (e : OpError)
deriving DecidableEq, Repr

/-- Embeds GameManager.js `startGame(roomCode, hostId)`: room-not-found,
not-host, insufficient-players (< 2) checks in source order, then
`room.startGame(room.targetColor)` (reusing the room's stored target). -/
def GameManager.startGame (gm : GameManager) (roomCode hostId : String) :
    GameManager × StartResult :=
  match mapGet gm.rooms roomCode with
  | none => (gm, .err .roomNotFound)
  | some room =>
    if room.hostId ≠ hostId then (gm, .err .notHost)
    else if room.players.length < 2 then (gm, .err .insufficientPlayers)
    else
      ({ gm with rooms := mapSet gm.rooms roomCode (room.startGame room.targetColor) },
       .ok)

/-- Embeds GameManager.js `removePlayer(playerId)`: look up the player's room
through the reverse index, delegate removal, drop the index entry, and delete
the room when it became empty.  (When the index has no entry, or the indexed
room is missing, the source returns early without touching anything.) -/
def GameManager.removePlayer (gm : GameManager) (playerId : String) : GameManager :=
  match mapGet gm.playerRooms playerId with
  | none => gm
  | some roomCode =>
    match mapGet gm.rooms roomCode with
    | none => gm
    | some room =>
      let room' := room.removePlayer playerId
      let rooms' :=
        if room'.players.length = 0 then mapDelete gm.rooms roomCode
        else mapSet gm.rooms roomCode room'
      { rooms := rooms', playerRooms := mapDelete gm.playerRooms playerId }

/-- One coordinator operation, with its random outcomes as data: the claims
about registry invariants quantify over sequences of createRoom / joinRoom /
removePlayer calls. -/
inductive GMAction
  | create (playerId playerName roomCode : String) (target : Color)
  | join (playerId playerName : String) (roomCode : Option String)
      (freshCode : String) (freshTarget : Color)
  | remove (playerId : String)
deriving DecidableEq, Repr

/-- State transition of one coordinator operation (result discarded). -/
def gmStep (gm : GameManager) (a : GMAction) : GameManager :=
  match a with
  | .create pid pname code target => (gm.createRoom pid pname code target).1
  | .join pid pname rc fresh target => (gm.joinRoom pid pname rc fresh target).1
  | .remove pid => gm.removePlayer pid

/-- Run a sequence of coordinator operations from a state. -/
def gmRun (gm : GameManager) (acts : List GMAction) : GameManager :=
  acts.foldl gmStep gm

/-- Guard for one action: the acting player is not currently indexed to any
room, and any code the generator hands to `createRoom` (directly or through
the join fallback) is not already in use. -/
def okAction (gm : GameManager) : GMAction → Prop
  | .create pid _ code _ =>
      mapGet gm.playerRooms pid = none ∧ mapGet gm.rooms code = none
  | .join pid _ rc fresh _ =>
      mapGet gm.playerRooms pid = none ∧
      (rc = none → mapGet gm.rooms fresh = none)
  | .remove _ => True

/-- A whole action sequence is guarded along its execution. -/
def guardedFrom : GameManager → List GMAction → Prop
  | _, [] => True
  | gm, a :: rest => okAction gm a ∧ guardedFrom (gmStep gm a) rest

instance : ∀ gm (a : GMAction), Decidable (okAction gm a) := fun gm a => by
  cases a <;> { unfold okAction; infer_instance }

instance : ∀ gm (acts : List GMAction), Decidable (guardedFrom gm acts) :=
  fun gm acts => by
  induction acts generalizing gm with
  | nil => exact .isTrue trivial
  | cons a rest ih => exact @instDecidableAnd _ _ _ (ih (gmStep gm a))

/-- Basic bound: `jround x` is within 1/2 of x (above by at most 1/2). -/
theorem jround_le (x : ℚ) : (jround x : ℚ) ≤ x + 1/2 := by
  unfold jround
  exact_mod_cast Int.floor_le (x + 1/2)

/-- Basic bound: `jround x` is within 1/2 of x (below by strictly less than 1/2). -/
theorem lt_jround (x : ℚ) : x - 1/2 < (jround x : ℚ) := by
  unfold jround
  have h := Int.sub_one_lt_floor (x + 1/2)
  push_cast at h ⊢
  linarith

/-- Rounding a value in [0, 255] stays in [0, 255]. -/
theorem jround_range {x : ℚ} (h0 : 0 ≤ x) (h255 : x ≤ 255) :
    0 ≤ jround x ∧ jround x ≤ 255 := by
  constructor
  · have h1 : (-1 : ℚ) < (jround x : ℚ) := by
      have := lt_jround x
      linarith
    have h2 : (-1 : ℤ) < jround x := by exact_mod_cast h1
    omega
  · have h1 : (jround x : ℚ) < 256 := by
      have := jround_le x
      linarith
    have h2 : jround x < (256 : ℤ) := by exact_mod_cast h1
    omega

/-- Looking up the key just set yields the new value. -/
theorem mapGet_set_self {α : Type} (m : List (String × α)) (k : String) (v : α) :
    mapGet (mapSet m k v) k = some v := by
  induction m with
  | nil => simp [mapGet, mapSet]
  | cons e rest ih =>
    obtain ⟨k', v'⟩ := e
    by_cases hk : k' = k
    · simp [mapGet, mapSet, hk]
    · simp [mapGet, mapSet, hk, ih]

/-- Setting one key leaves lookups of other keys unchanged. -/
theorem mapGet_set_ne {α : Type} (m : List (String × α)) {k k' : String} (v : α)
    (h : k' ≠ k) : mapGet (mapSet m k v) k' = mapGet m k' := by
  have hne : ¬(k = k') := fun hh => h hh.symm
  induction m with
  | nil => simp [mapGet, mapSet, hne]
  | cons e rest ih =>
    obtain ⟨k0, v0⟩ := e
    by_cases hk : k0 = k
    · subst hk
      simp [mapGet, mapSet, hne]
    · by_cases hk' : k0 = k'
      · subst hk'
        simp [mapGet, mapSet, h]
      · simp [mapGet, mapSet, hk, hk', ih]

/-- Deleting a key removes it from lookups. -/
theorem mapGet_delete_self {α : Type} (m : List (String × α)) (k : String) :
    mapGet (mapDelete m k) k = none := by
  induction m with
  | nil => simp [mapGet, mapDelete]
  | cons e rest ih =>
    obtain ⟨k0, v0⟩ := e
    by_cases hk : k0 = k
    · simpa [mapDelete, hk] using ih
    · simpa [mapDelete, mapGet, hk] using ih

/-- Deleting one key leaves lookups of other keys unchanged. -/
theorem mapGet_delete_ne {α : Type} (m : List (String × α)) {k k' : String}
    (h : k' ≠ k) : mapGet (mapDelete m k) k' = mapGet m k' := by
  induction m with
  | nil => simp [mapGet, mapDelete]
  | cons e rest ih =>
    obtain ⟨k0, v0⟩ := e
    by_cases hk : k0 = k
    · subst hk
      have hne : ¬(k0 = k') := fun hh => h hh.symm
      simp only [mapDelete, List.filter] at ih ⊢
      simpa [mapGet, hne] using ih
    · by_cases hk' : k0 = k'
      · subst hk'
        simp [mapDelete, List.filter, hk, mapGet]
      · simp only [mapDelete, List.filter] at ih ⊢
        simpa [mapGet, hk, hk'] using ih

/-- `mapSet` grows the list by at most one entry. -/
theorem mapSet_length_le {α : Type} (m : List (String × α)) (k : String) (v : α) :
    (mapSet m k v).length ≤ m.length + 1 := by
  induction m with
  | nil => simp [mapSet]
  | cons e rest ih =>
    obtain ⟨k0, v0⟩ := e
    by_cases hk : k0 = k
    · simp [mapSet, hk]
    · simp only [mapSet, if_neg hk, List.length_cons]
      omega

/-- Every entry of `mapSet m k v` is an entry of m or has key k. -/
theorem mapSet_mem_cases {α : Type} {m : List (String × α)} {k : String} {v : α}
    {e : String × α} (h : e ∈ mapSet m k v) : e ∈ m ∨ (e.1 = k ∧ e.2 = v) := by
  induction m with
  | nil =>
    simp [mapSet] at h
    right; rw [h]; exact ⟨rfl, rfl⟩
  | cons e0 rest ih =>
    obtain ⟨k0, v0⟩ := e0
    by_cases hk : k0 = k
    · simp only [mapSet, if_pos hk, List.mem_cons] at h
      rcases h with h | h
      · right; rw [h]; exact ⟨hk, rfl⟩
      · left; exact List.mem_cons_of_mem _ h
    · simp only [mapSet, if_neg hk, List.mem_cons] at h
      rcases h with h | h
      · left; rw [h]; exact List.mem_cons_self _ _
      · rcases ih h with h' | h'
        · left; exact List.mem_cons_of_mem _ h'
        · right; exact h'

/-- `mapSet` preserves distinctness of keys. -/
theorem mapSet_keys_nodup {α : Type} (m : List (String × α)) (k : String) (v : α)
    (h : (m.map Prod.fst).Nodup) : ((mapSet m k v).map Prod.fst).Nodup := by
  induction m with
  | nil => simp [mapSet]
  | cons e rest ih =>
    obtain ⟨k0, v0⟩ := e
    simp only [List.map_cons, List.nodup_cons] at h
    by_cases hk : k0 = k
    · simpa [mapSet, hk, List.nodup_cons] using h
    · have hmem : k0 ∉ ((mapSet rest k v).map Prod.fst) := by
        intro hin
        rcases List.mem_map.mp hin with ⟨⟨ka, va⟩, hmem2, hfst⟩
        rcases mapSet_mem_cases hmem2 with hcase | hcase
        · exact h.1 (List.mem_map.mpr ⟨(ka, va), hcase, hfst⟩)
        · exact hk (by rw [← hfst]; exact hcase.1)
      simpa [mapSet, hk, List.nodup_cons, hmem] using ih h.2

/-- `mapDelete` preserves distinctness of keys. -/
theorem mapDelete_keys_nodup {α : Type} (m : List (String × α)) (k : String)
    (h : (m.map Prod.fst).Nodup) : ((mapDelete m k).map Prod.fst).Nodup := by
  unfold mapDelete
  exact List.Nodup.sublist (List.Sublist.map Prod.fst (List.filter_sublist m)) h

/-- The JS-style remainder is nonnegative for a positive modulus. -/
theorem jsMod_nonneg (a b : ℚ) (hb : 0 < b) : 0 ≤ jsMod a b := by
  unfold jsMod
  have h1 : (⌊a / b⌋ : ℚ) ≤ a / b := Int.floor_le _
  have h2 : b * (⌊a / b⌋ : ℚ) ≤ b * (a / b) := by nlinarith
  have h3 : b * (a / b) = a := by field_simp
  linarith

/-- The JS-style remainder is below the (positive) modulus. -/
theorem jsMod_lt (a b : ℚ) (hb : 0 < b) : jsMod a b < b := by
  unfold jsMod
  have h1 : a / b - 1 < (⌊a / b⌋ : ℚ) := Int.sub_one_lt_floor _
  have h2 : b * (a / b - 1) < b * (⌊a / b⌋ : ℚ) := by nlinarith
  have h3 : b * (a / b) = a := by field_simp
  nlinarith

/-- A rounded channel `(t + m) * 255` with `0 ≤ t`, `0 ≤ m`, `t + m ≤ 1` lies
in [0, 255]. -/
theorem jround_channel {t m : ℚ} (h0 : 0 ≤ t) (h1 : 0 ≤ m) (h2 : t + m ≤ 1) :
    0 ≤ jround ((t + m) * 255) ∧ jround ((t + m) * 255) ≤ 255 :=
  jround_range (by nlinarith) (by nlinarith)

/-- Room.js hsvToRgb produces integer channels in [0, 255] whenever s and v lie
in [0, 1] (no constraint on the hue is needed for the range). -/
theorem hsvToRgb_valid_aux (h s v : ℚ) (hs0 : 0 ≤ s) (hs1 : s ≤ 1)
    (hv0 : 0 ≤ v) (hv1 : v ≤ 1) : (hsvToRgb h s v).valid := by
  have hj0 := jsMod_nonneg (h / 60) 2 (by norm_num)
  have hj2 := jsMod_lt (h / 60) 2 (by norm_num)
  have habs : |jsMod (h / 60) 2 - 1| ≤ 1 := abs_le.mpr ⟨by linarith, by linarith⟩
  have habs0 : 0 ≤ |jsMod (h / 60) 2 - 1| := abs_nonneg _
  have hc0 : 0 ≤ v * s := mul_nonneg hv0 hs0
  have hcv : v * s ≤ v := by nlinarith
  have hx0 : 0 ≤ v * s * (1 - |jsMod (h / 60) 2 - 1|) :=
    mul_nonneg hc0 (by linarith)
  have hxc : v * s * (1 - |jsMod (h / 60) 2 - 1|) ≤ v * s := by nlinarith
  have hm0 : 0 ≤ v - v * s := by linarith
  unfold hsvToRgb Color.valid
  dsimp only
  split_ifs <;>
    exact ⟨(jround_channel (by linarith) hm0 (by linarith)).1,
           (jround_channel (by linarith) hm0 (by linarith)).2,
           (jround_channel (by linarith) hm0 (by linarith)).1,
           (jround_channel (by linarith) hm0 (by linarith)).2,
           (jround_channel (by linarith) hm0 (by linarith)).1,
           (jround_channel (by linarith) hm0 (by linarith)).2⟩

/-- Room.js calculateHitColor produces a well-formed color for every
nonnegative distance (the saturation clamp keeps it in [0, 1]). -/
theorem calculateHitColor_valid_aux (hue dist : ℚ) (hd : 0 ≤ dist) :
    (calculateHitColor hue dist).valid := by
  unfold calculateHitColor
  exact hsvToRgb_valid_aux hue _ 1
    (le_min (by linarith) (by norm_num)) (min_le_right _ _) (by norm_num) (by norm_num)

/-- A convex combination of two values in [0, 255] stays in [0, 255]. -/
theorem convex_combo_range {x y w : ℚ} (hx0 : 0 ≤ x) (hx1 : x ≤ 255)
    (hy0 : 0 ≤ y) (hy1 : y ≤ 255) (hw0 : 0 ≤ w) (hw1 : w ≤ 1) :
    0 ≤ x * (1 - w) + y * w ∧ x * (1 - w) + y * w ≤ 255 := by
  constructor
  · have h1 := mul_nonneg hx0 (by linarith : (0:ℚ) ≤ 1 - w)
    have h2 := mul_nonneg hy0 hw0
    linarith
  · have h1 : x * (1 - w) ≤ 255 * (1 - w) :=
      mul_le_mul_of_nonneg_right hx1 (by linarith)
    have h2 : y * w ≤ 255 * w := mul_le_mul_of_nonneg_right hy1 hw0
    linarith

/-- C8: for colors a and b with integer channels in [0, 255] and a weight w in
[0, 1], every channel of `mixColors a b w` equals `round(a * (1-w) + b * w)`
per channel and lies within [0, 255]. -/
theorem mixColors_round_and_range (a b : Color) (w : ℚ)
    (ha : a.valid) (hb : b.valid) (hw0 : 0 ≤ w) (hw1 : w ≤ 1) :
    (mixColors a b w).r = jround ((a.r : ℚ) * (1 - w) + (b.r : ℚ) * w) ∧
    (mixColors a b w).g = jround ((a.g : ℚ) * (1 - w) + (b.g : ℚ) * w) ∧
    (mixColors a b w).b = jround ((a.b : ℚ) * (1 - w) + (b.b : ℚ) * w) ∧
    (mixColors a b w).valid := by
  obtain ⟨har0, har1, hag0, hag1, hab0, hab1⟩ := ha
  obtain ⟨hbr0, hbr1, hbg0, hbg1, hbb0, hbb1⟩ := hb
  have hr := convex_combo_range (x := (a.r : ℚ)) (y := (b.r : ℚ))
    (by exact_mod_cast har0) (by exact_mod_cast har1)
    (by exact_mod_cast hbr0) (by exact_mod_cast hbr1) hw0 hw1
  have hg := convex_combo_range (x := (a.g : ℚ)) (y := (b.g : ℚ))
    (by exact_mod_cast hag0) (by exact_mod_cast hag1)
    (by exact_mod_cast hbg0) (by exact_mod_cast hbg1) hw0 hw1
  have hb' := convex_combo_range (x := (a.b : ℚ)) (y := (b.b : ℚ))
    (by exact_mod_cast hab0) (by exact_mod_cast hab1)
    (by exact_mod_cast hbb0) (by exact_mod_cast hbb1) hw0 hw1
  refine ⟨rfl, rfl, rfl, ?_⟩
  unfold mixColors Color.valid
  dsimp only
  exact ⟨(jround_range hr.1 hr.2).1, (jround_range hr.1 hr.2).2,
         (jround_range hg.1 hg.2).1, (jround_range hg.1 hg.2).2,
         (jround_range hb'.1 hb'.2).1, (jround_range hb'.1 hb'.2).2⟩

/-- C8 witness: the theorem instantiated at a = (10,20,30), b = (250,240,230),
w = 3/10. -/
theorem mixColors_round_and_range_witness :
    (mixColors { r := 10, g := 20, b := 30 } { r := 250, g := 240, b := 230 }
      (3/10)).valid :=
  (mixColors_round_and_range
    { r := 10, g := 20, b := 30 } { r := 250, g := 240, b := 230 } (3/10)
    (by decide) (by decide) (by norm_num) (by norm_num)).2.2.2

/-- C10: for every hue in [0, 360) and saturation and value in [0, 1],
Room.js hsvToRgb returns a color with integer channels in [0, 255]; as a
consequence the server resolver calculateHitColor returns a well-formed color
for every landing position (every position yields a hue in [0, 360) and a
nonnegative distance), so the resolution step of processDartThrow cannot
produce an out-of-range color. -/
theorem hsvToRgb_and_hit_color_valid :
    (∀ h s v : ℚ, 0 ≤ h → h < 360 → 0 ≤ s → s ≤ 1 → 0 ≤ v → v ≤ 1 →
      (hsvToRgb h s v).valid) ∧
    (∀ hue dist : ℚ, 0 ≤ hue → hue < 360 → 0 ≤ dist →
      (calculateHitColor hue dist).valid) :=
  ⟨fun h s v _ _ hs0 hs1 hv0 hv1 => hsvToRgb_valid_aux h s v hs0 hs1 hv0 hv1,
   fun hue dist _ _ hd => calculateHitColor_valid_aux hue dist hd⟩

/-- C10 witness: the theorem instantiated at hue 90, s = v = 1 and at the
landing position on the positive x-axis at distance 10. -/
theorem hsvToRgb_and_hit_color_valid_witness :
    (hsvToRgb 90 1 1).valid ∧ (calculateHitColor 0 10).valid :=
  ⟨hsvToRgb_and_hit_color_valid.1 90 1 1 (by norm_num) (by norm_num)
      (by norm_num) (by norm_num) (by norm_num) (by norm_num),
   hsvToRgb_and_hit_color_valid.2 0 10 (by norm_num) (by norm_num) (by norm_num)⟩

/-- C1 counterexample: the claim asserts that the server resolver
(calculateHitColor) returns null for a landing position whose planar distance
from the wheel center exceeds the wheel radius 3.  It never does: the source
has no radius check.  At the position (x, z) = (10, 0) — hue 0, planar
distance 10 > 3 — the resolution step of processDartThrow (client hitColor
field absent) produces the color (255, 0, 0) rather than null. -/
theorem server_resolver_never_null_counterexample :
    (3 : ℚ) < 10 ∧
    resolveHitColor
        { hitColor := none, hueAtPosition := 0, distAtPosition := 10,
          trajectory := 0 } =
      some { r := 255, g := 0, b := 0 } := by
  refine ⟨by norm_num, ?_⟩
  norm_num [resolveHitColor, calculateHitColor, hsvToRgb, jsMod, jround, min_def]

/-- C1 amended: the client resolver getColorAtPosition returns null for every
position with planar distance > 3 (equivalently x² + y² > 9); the server
resolver calculateHitColor never returns null and instead produces a
well-formed color (integer channels in [0, 255]) for every landing position,
regardless of distance. -/
theorem resolver_radius_amended :
    (∀ (x y : ℚ) (raycast : Option Color),
      x * x + y * y > 9 → getColorAtPosition x y raycast = none) ∧
    (∀ hue dist : ℚ, 0 ≤ hue → hue < 360 → 0 ≤ dist →
      ∀ traj : ℕ,
        resolveHitColor
            { hitColor := none, hueAtPosition := hue, distAtPosition := dist,
              trajectory := traj } =
          some (calculateHitColor hue dist) ∧
        (calculateHitColor hue dist).valid) := by
  constructor
  · intro x y raycast hxy
    unfold getColorAtPosition
    simp [hxy]
  · intro hue dist _ _ hd traj
    exact ⟨rfl, calculateHitColor_valid_aux hue dist hd⟩

/-- C1 amended witness: the amended theorem instantiated at the outside
position (x, y) = (4, 0) for the client resolver and at hue 0, distance 10
for the server resolver. -/
theorem resolver_radius_amended_witness :
    getColorAtPosition 4 0 (some { r := 1, g := 2, b := 3 }) = none ∧
    (calculateHitColor 0 10).valid :=
  ⟨resolver_radius_amended.1 4 0 (some { r := 1, g := 2, b := 3 }) (by norm_num),
   (resolver_radius_amended.2 0 10 (by norm_num) (by norm_num) (by norm_num) 0).2⟩

/-- The decidable win check of the embedding agrees with the source's
`Math.sqrt(dr² + dg² + db²) <= tolerance` comparison. -/
theorem sqrt_cast_le_iff (c1 c2 : Color) (tol : ℚ) :
    (Real.sqrt ((colorDistSq c1 c2 : ℤ) : ℝ) ≤ (tol : ℝ)) ↔
      withinTolerance c1 c2 tol = true := by
  unfold withinTolerance
  rw [Real.sqrt_le_iff, decide_eq_true_eq]
  constructor
  · rintro ⟨h1, h2⟩
    refine ⟨by exact_mod_cast h1, ?_⟩
    have h3 : ((colorDistSq c1 c2 : ℚ) : ℝ) ≤ ((tol * tol : ℚ) : ℝ) := by
      push_cast at h2 ⊢
      nlinarith [h2]
    exact_mod_cast h3
  · rintro ⟨h1, h2⟩
    refine ⟨by exact_mod_cast h1, ?_⟩
    have h3 : ((colorDistSq c1 c2 : ℚ) : ℝ) ≤ ((tol * tol : ℚ) : ℝ) := by
      exact_mod_cast h2
    push_cast at h3 ⊢
    nlinarith [h3]

/-- C2: in a playing room, a throw whose resolved hit color is non-null mixes
the player's current color 30% toward the hit color, stores it, and declares
this player the winner — setting finalColor and moving the room to finished —
exactly when the Euclidean distance between the new color and the target is at
most the color tolerance; when the distance exceeds the tolerance nothing is
declared and the phase stays playing.  A throw that resolves to null never
produces a winner (the win check runs only when the color changed). -/
theorem processDartThrow_win_iff
    (room : Room) (pid : String) (td : ThrowData) (tid : ℕ) (ts : ℤ)
    (player : Player) (cur hc : Color)
    (hphase : room.gameState = .playing)
    (hplayer : mapGet room.players pid = some player)
    (hcur : mapGet room.playerColors pid = some cur)
    (hhit : resolveHitColor td = some hc) :
    (∃ room' res, room.processDartThrow pid td tid ts = some (room', res) ∧
      res.colorChanged = true ∧
      res.newColor = some (mixColors cur hc (3/10)) ∧
      mapGet room'.playerColors pid = some (mixColors cur hc (3/10)) ∧
      ((Real.sqrt ((colorDistSq (mixColors cur hc (3/10)) room.targetColor : ℤ) : ℝ) ≤
          (room.gameSettings.colorTolerance : ℝ)) →
        res.winner = some { player with currentColor := mixColors cur hc (3/10),
                                        throwCount := player.throwCount + 1 } ∧
        res.finalColor = some (mixColors cur hc (3/10)) ∧
        room'.gameState = .finished) ∧
      (¬ (Real.sqrt ((colorDistSq (mixColors cur hc (3/10)) room.targetColor : ℤ) : ℝ) ≤
          (room.gameSettings.colorTolerance : ℝ)) →
        res.winner = none ∧ res.finalColor = none ∧ room'.gameState = .playing)) ∧
    (∀ td2 : ThrowData, resolveHitColor td2 = none →
      ∀ room2 res2, room.processDartThrow pid td2 tid ts = some (room2, res2) →
        res2.winner = none) := by
  constructor
  · unfold Room.processDartThrow
    simp only [hplayer, hhit, hcur]
    refine ⟨_, _, rfl, rfl, rfl, mapGet_set_self _ _ _, ?_, ?_⟩
    · intro hsqrt
      rw [sqrt_cast_le_iff] at hsqrt
      simp [hsqrt]
    · intro hsqrt
      rw [sqrt_cast_le_iff] at hsqrt
      simp only [Bool.not_eq_true] at hsqrt
      simp [hsqrt, hphase]
  · intro td2 hmiss room2 res2 hrun
    unfold Room.processDartThrow at hrun
    simp only [hplayer, hmiss, Option.some.injEq, Prod.mk.injEq] at hrun
    rw [← hrun.2]

/-- A concrete two-player room in phase playing, used to instantiate the
theorems about processDartThrow and startGame. -/
def demoRoom : Room :=
  let r0 := Room.create "AAAA" "p1" "Alice" { r := 200, g := 40, b := 40 }
  let r1 := (r0.addPlayer "p2" "Bob").1
  r1.startGame r1.targetColor

/-- The first player of `demoRoom` after the game start reset. -/
def demoPlayer : Player :=
  { id := "p1", name := "Alice", isHost := true, isReady := false,
    throwCount := 0, currentColor := { r := 128, g := 128, b := 128 }, score := 0 }

/-- C2 witness: the win-check theorem instantiated on `demoRoom` with a
client-supplied red hit color. -/
theorem processDartThrow_win_iff_witness :
    demoRoom.gameState = GamePhase.playing ∧
    (∃ room' res,
      demoRoom.processDartThrow "p1"
          { hitColor := some (some { r := 255, g := 0, b := 0 }),
            hueAtPosition := 0, distAtPosition := 0, trajectory := 0 } 1 0 =
        some (room', res) ∧
      res.colorChanged = true ∧
      res.newColor =
        some (mixColors { r := 128, g := 128, b := 128 } { r := 255, g := 0, b := 0 }
          (3/10)) ∧
      mapGet room'.playerColors "p1" =
        some (mixColors { r := 128, g := 128, b := 128 } { r := 255, g := 0, b := 0 }
          (3/10)) ∧
      ((Real.sqrt ((colorDistSq
            (mixColors { r := 128, g := 128, b := 128 } { r := 255, g := 0, b := 0 }
              (3/10)) demoRoom.targetColor : ℤ) : ℝ) ≤
          (demoRoom.gameSettings.colorTolerance : ℝ)) →
        res.winner = some { demoPlayer with
          currentColor :=
            mixColors { r := 128, g := 128, b := 128 } { r := 255, g := 0, b := 0 }
              (3/10),
          throwCount := demoPlayer.throwCount + 1 } ∧
        res.finalColor =
          some (mixColors { r := 128, g := 128, b := 128 } { r := 255, g := 0, b := 0 }
            (3/10)) ∧
        room'.gameState = GamePhase.finished) ∧
      (¬ (Real.sqrt ((colorDistSq
            (mixColors { r := 128, g := 128, b := 128 } { r := 255, g := 0, b := 0 }
              (3/10)) demoRoom.targetColor : ℤ) : ℝ) ≤
          (demoRoom.gameSettings.colorTolerance : ℝ)) →
        res.winner = none ∧ res.finalColor = none ∧
        room'.gameState = GamePhase.playing)) :=
  ⟨by decide,
   (processDartThrow_win_iff demoRoom "p1"
      { hitColor := some (some { r := 255, g := 0, b := 0 }),
        hueAtPosition := 0, distAtPosition := 0, trajectory := 0 } 1 0
      demoPlayer { r := 128, g := 128, b := 128 } { r := 255, g := 0, b := 0 }
      (by decide) (by decide) (by decide) (by decide)).1⟩

/-- C3: a throw whose resolved hit color is null leaves the player's current
color and the playerColors map untouched and reports colorChanged = false;
the throw count increments on both hits and misses; and whenever the throw
produces no winner (every miss included) the turn advances to
(currentTurn + 1) mod turnOrder.length.  (The turn order is required
non-empty, as it is whenever a game is in progress; with an empty turn order
the source's modulo would produce NaN.) -/
theorem processDartThrow_miss_and_turn
    (room : Room) (pid : String) (td : ThrowData) (tid : ℕ) (ts : ℤ)
    (player : Player)
    (hplayer : mapGet room.players pid = some player)
    (hturn : room.turnOrder ≠ []) :
    (resolveHitColor td = none →
      ∃ room' res, room.processDartThrow pid td tid ts = some (room', res) ∧
        room'.playerColors = room.playerColors ∧
        mapGet room'.players pid =
          some { player with throwCount := player.throwCount + 1 } ∧
        res.colorChanged = false ∧
        res.winner = none ∧
        room'.currentTurn = (room.currentTurn + 1) % room.turnOrder.length) ∧
    (∀ hc cur, resolveHitColor td = some hc →
      mapGet room.playerColors pid = some cur →
      ∃ room' res, room.processDartThrow pid td tid ts = some (room', res) ∧
        (mapGet room'.players pid).map Player.throwCount =
          some (player.throwCount + 1) ∧
        (res.winner = none →
          room'.currentTurn = (room.currentTurn + 1) % room.turnOrder.length)) := by
  constructor
  · intro hmiss
    unfold Room.processDartThrow
    simp only [hplayer, hmiss]
    exact ⟨_, _, rfl, rfl, mapGet_set_self _ _ _, rfl, rfl, rfl⟩
  · intro hc cur hhit hcur
    unfold Room.processDartThrow
    simp only [hplayer, hhit, hcur]
    refine ⟨_, _, rfl, ?_, ?_⟩
    · rw [mapGet_set_self]
      rfl
    · intro hwin
      by_cases hwon :
          withinTolerance (mixColors cur hc (3/10)) room.targetColor
            room.gameSettings.colorTolerance = true
      · exfalso
        simp only [hwon, if_pos] at hwin
        exact Option.noConfusion hwin
      · simp only [Bool.not_eq_true] at hwon
        simp [hwon]

/-- C3 witness: the miss/turn theorem instantiated on `demoRoom` with a
client-reported miss (explicit null hit color). -/
theorem processDartThrow_miss_and_turn_witness :
    mapGet demoRoom.players "p1" = some demoPlayer ∧
    demoRoom.turnOrder ≠ [] ∧
    (resolveHitColor
        { hitColor := some none, hueAtPosition := 0, distAtPosition := 0,
          trajectory := 0 } = none →
      ∃ room' res,
        demoRoom.processDartThrow "p1"
            { hitColor := some none, hueAtPosition := 0, distAtPosition := 0,
              trajectory := 0 } 1 0 =
          some (room', res) ∧
        room'.playerColors = demoRoom.playerColors ∧
        mapGet room'.players "p1" =
          some { demoPlayer with throwCount := demoPlayer.throwCount + 1 } ∧
        res.colorChanged = false ∧
        res.winner = none ∧
        room'.currentTurn = (demoRoom.currentTurn + 1) % demoRoom.turnOrder.length) :=
  ⟨by decide, by decide,
   (processDartThrow_miss_and_turn demoRoom "p1"
      { hitColor := some none, hueAtPosition := 0, distAtPosition := 0,
        trajectory := 0 } 1 0 demoPlayer (by decide) (by decide)).1⟩

/-- C4: coordinator startGame fails with the not-host error when the requester
differs from the room's stored host id, and with the insufficient-players
error when the room has fewer than 2 players; on success the room's phase
becomes playing, the turn order is snapshotted from the current player ids,
currentTurn is 0, the throw list is emptied, and every player is reset to
throw count 0, score 0 and the neutral color (128, 128, 128). -/
theorem startGame_checks_and_reset
    (gm : GameManager) (code requester : String) (room : Room)
    (hroom : mapGet gm.rooms code = some room) :
    (room.hostId ≠ requester →
      gm.startGame code requester = (gm, .err .notHost)) ∧
    (room.hostId = requester → room.players.length < 2 →
      gm.startGame code requester = (gm, .err .insufficientPlayers)) ∧
    (room.hostId = requester → 2 ≤ room.players.length →
      ∃ room',
        (gm.startGame code requester).2 = .ok ∧
        mapGet (gm.startGame code requester).1.rooms code = some room' ∧
        room'.gameState = .playing ∧
        room'.turnOrder = room.players.map Prod.fst ∧
        room'.currentTurn = 0 ∧
        room'.throws = [] ∧
        ∀ e ∈ room'.players,
          e.2.throwCount = 0 ∧ e.2.score = 0 ∧
          e.2.currentColor = { r := 128, g := 128, b := 128 }) := by
  refine ⟨?_, ?_, ?_⟩
  · intro hhost
    unfold GameManager.startGame
    simp [hroom, hhost]
  · intro hhost hcount
    unfold GameManager.startGame
    simp [hroom, hhost, hcount]
  · intro hhost hcount
    unfold GameManager.startGame
    have h1 : ¬ (room.hostId ≠ requester) := by simp [hhost]
    have hc2 : ¬ room.players.length < 2 := by omega
    simp only [hroom]
    rw [if_neg h1, if_neg hc2]
    refine ⟨room.startGame room.targetColor, rfl, ?_, rfl, rfl, rfl, rfl, ?_⟩
    · exact mapGet_set_self _ _ _
    · intro e he
      unfold Room.startGame at he
      simp only [List.mem_map] at he
      obtain ⟨e0, -, rfl⟩ := he
      exact ⟨rfl, rfl, rfl⟩

/-- A concrete coordinator holding one waiting room "AAAA" with players p1
(host) and p2. -/
def demoGM : GameManager :=
  ((GameManager.empty.createRoom "p1" "Alice" "AAAA"
      { r := 200, g := 40, b := 40 }).1.joinRoom
    "p2" "Bob" (some "AAAA") "BBBB" { r := 0, g := 0, b := 0 }).1

/-- C4 witness: the startGame theorem instantiated on `demoGM` (2 players),
using the success branch. -/
theorem startGame_checks_and_reset_witness :
    ∃ room',
      (demoGM.startGame "AAAA" "p1").2 = .ok ∧
      mapGet (demoGM.startGame "AAAA" "p1").1.rooms "AAAA" = some room' ∧
      room'.gameState = .playing ∧
      room'.turnOrder =
        (Room.create "AAAA" "p1" "Alice" { r := 200, g := 40, b := 40 }
          |>.addPlayer "p2" "Bob").1.players.map Prod.fst ∧
      room'.currentTurn = 0 ∧
      room'.throws = [] ∧
      ∀ e ∈ room'.players,
        e.2.throwCount = 0 ∧ e.2.score = 0 ∧
        e.2.currentColor = { r := 128, g := 128, b := 128 } :=
  (startGame_checks_and_reset demoGM "AAAA" "p1"
    ((Room.create "AAAA" "p1" "Alice" { r := 200, g := 40, b := 40 }
      |>.addPlayer "p2" "Bob").1)
    (by decide)).2.2 (by decide) (by decide)

/-- C5: joinRoom with a room code fails with room-not-found when the code is
absent, room-full when the room already has 4 players, game-in-progress when
the phase is not waiting, and otherwise adds the player and succeeds; and for
any pre-state room with at most 4 players, the room under that code after the
call still has at most 4 players, so joinRoom never pushes a room past 4. -/
theorem joinRoom_checks_and_capacity
    (gm : GameManager) (pid pname code fresh : String) (ft : Color) :
    (mapGet gm.rooms code = none →
      gm.joinRoom pid pname (some code) fresh ft = (gm, .err .roomNotFound)) ∧
    (∀ room, mapGet gm.rooms code = some room →
      (room.players.length ≥ 4 →
        gm.joinRoom pid pname (some code) fresh ft = (gm, .err .roomFull)) ∧
      (room.players.length < 4 → room.gameState ≠ .waiting →
        gm.joinRoom pid pname (some code) fresh ft = (gm, .err .gameInProgress)) ∧
      (room.players.length < 4 → room.gameState = .waiting →
        (gm.joinRoom pid pname (some code) fresh ft).2 =
          .ok code (some (room.addPlayer pid pname).2) ∧
        mapGet (gm.joinRoom pid pname (some code) fresh ft).1.rooms code =
          some (room.addPlayer pid pname).1 ∧
        mapGet (room.addPlayer pid pname).1.players pid =
          some (room.addPlayer pid pname).2) ∧
      (room.players.length ≤ 4 →
        ∀ room',
          mapGet (gm.joinRoom pid pname (some code) fresh ft).1.rooms code =
            some room' →
          room'.players.length ≤ 4)) := by
  constructor
  · intro hnone
    unfold GameManager.joinRoom
    simp [hnone]
  · intro room hroom
    have hfull : ∀ h4 : room.players.length ≥ 4,
        gm.joinRoom pid pname (some code) fresh ft = (gm, .err .roomFull) := by
      intro h4
      unfold GameManager.joinRoom
      simp [hroom, h4]
    have hprog : ∀ (_ : room.players.length < 4) (_ : room.gameState ≠ .waiting),
        gm.joinRoom pid pname (some code) fresh ft = (gm, .err .gameInProgress) := by
      intro h4 hw
      have h4' : ¬ room.players.length ≥ 4 := by omega
      unfold GameManager.joinRoom
      simp [hroom, h4', hw]
    have hsucc : ∀ (_ : room.players.length < 4) (_ : room.gameState = .waiting),
        (gm.joinRoom pid pname (some code) fresh ft).2 =
          .ok code (some (room.addPlayer pid pname).2) ∧
        mapGet (gm.joinRoom pid pname (some code) fresh ft).1.rooms code =
          some (room.addPlayer pid pname).1 ∧
        mapGet (room.addPlayer pid pname).1.players pid =
          some (room.addPlayer pid pname).2 := by
      intro h4 hw
      have h4' : ¬ room.players.length ≥ 4 := by omega
      have hw' : ¬ (room.gameState ≠ GamePhase.waiting) := by simp [hw]
      unfold GameManager.joinRoom
      simp only [hroom]
      rw [if_neg h4', if_neg hw']
      exact ⟨rfl, mapGet_set_self _ _ _, mapGet_set_self _ _ _⟩
    refine ⟨hfull, hprog, hsucc, ?_⟩
    intro h4 room' hroom'
    by_cases hge : room.players.length ≥ 4
    · rw [hfull hge] at hroom'
      dsimp only at hroom'
      rw [hroom] at hroom'
      cases hroom'
      omega
    · by_cases hw : room.gameState = .waiting
      · have h4' : room.players.length < 4 := by omega
        rw [(hsucc h4' hw).2.1] at hroom'
        cases hroom'
        unfold Room.addPlayer
        dsimp only
        have := mapSet_length_le room.players pid
          { id := pid, name := pname, isHost := pid = room.hostId,
            isReady := false, throwCount := 0,
            currentColor := { r := 0, g := 0, b := 0 }, score := 0 }
        omega
      · have h4' : room.players.length < 4 := by omega
        rw [hprog h4' hw] at hroom'
        dsimp only at hroom'
        rw [hroom] at hroom'
        cases hroom'
        omega

/-- The waiting two-player room held by `demoGM` under code "AAAA". -/
def demoRoomWaiting : Room :=
  ((Room.create "AAAA" "p1" "Alice" { r := 200, g := 40, b := 40 }).addPlayer
    "p2" "Bob").1

/-- C5 witness: the joinRoom theorem instantiated on `demoGM` (room "AAAA"
waiting with 2 players), success branch for a third player. -/
theorem joinRoom_checks_and_capacity_witness :
    (demoGM.joinRoom "p3" "Cara" (some "AAAA") "CCCC"
        { r := 0, g := 0, b := 0 }).2 =
      .ok "AAAA" (some ((demoRoomWaiting.addPlayer "p3" "Cara").2)) ∧
    mapGet (demoGM.joinRoom "p3" "Cara" (some "AAAA") "CCCC"
        { r := 0, g := 0, b := 0 }).1.rooms "AAAA" =
      some (demoRoomWaiting.addPlayer "p3" "Cara").1 ∧
    mapGet (demoRoomWaiting.addPlayer "p3" "Cara").1.players "p3" =
      some (demoRoomWaiting.addPlayer "p3" "Cara").2 :=
  ((joinRoom_checks_and_capacity demoGM "p3" "Cara" "AAAA" "CCCC"
      { r := 0, g := 0, b := 0 }).2 demoRoomWaiting (by decide)).2.2.1
    (by decide) (by decide)

/-- One coordinator step keeps the registry's room codes pairwise distinct
(the registry is a keyed map: set and delete preserve key distinctness). -/
theorem step_rooms_keys_nodup (gm : GameManager) (a : GMAction)
    (h : (gm.rooms.map Prod.fst).Nodup) :
    ((gmStep gm a).rooms.map Prod.fst).Nodup := by
  cases a with
  | create pid pname code t => exact mapSet_keys_nodup _ _ _ h
  | join pid pname rc fresh t =>
    unfold gmStep GameManager.joinRoom
    dsimp only
    rcases rc with _ | code
    · cases hf : gm.findAvailableRoom with
      | none => simp only [hf]; exact mapSet_keys_nodup _ _ _ h
      | some code =>
        simp only [hf]
        cases hm : mapGet gm.rooms code with
        | none => simp only [hm]; exact h
        | some room =>
          simp only [hm]
          split_ifs <;> first
            | exact h
            | exact mapSet_keys_nodup _ _ _ h
    · cases hm : mapGet gm.rooms code with
      | none => simp only [hm]; exact h
      | some room =>
        simp only [hm]
        split_ifs <;> first
          | exact h
          | exact mapSet_keys_nodup _ _ _ h
  | remove pid =>
    unfold gmStep GameManager.removePlayer
    cases hi : mapGet gm.playerRooms pid with
    | none => simp only [hi]; exact h
    | some code =>
      simp only [hi]
      cases hr : mapGet gm.rooms code with
      | none => simp only [hr]; exact h
      | some room =>
        simp only [hr]
        split_ifs <;> first
          | exact mapDelete_keys_nodup _ _ h
          | exact mapSet_keys_nodup _ _ _ h

/-- Room codes in a run of the coordinator are pairwise distinct. -/
theorem gmRun_rooms_keys_nodup (acts : List GMAction) :
    ((gmRun GameManager.empty acts).rooms.map Prod.fst).Nodup := by
  suffices h : ∀ gm, (gm.rooms.map Prod.fst).Nodup →
      ((gmRun gm acts).rooms.map Prod.fst).Nodup by
    exact h GameManager.empty (by simp [GameManager.empty])
  induction acts with
  | nil => intro gm h; exact h
  | cons a rest ih => intro gm h; exact ih _ (step_rooms_keys_nodup gm a h)

/-- C6 counterexample: the claim asserts createRoom never silently reuses a
code held by an active room, for every outcome of the random code generator.
When the generator returns "AAAA" twice, the second createRoom replaces
Alice's room with Bob's: afterwards the registry holds a single room under
"AAAA" whose host is "p2", while Alice's index entry still points at "AAAA". -/
theorem createRoom_collision_counterexample :
    ((mapGet (gmRun GameManager.empty
        [GMAction.create "p1" "Alice" "AAAA" { r := 1, g := 2, b := 3 }]).rooms
        "AAAA").map Room.hostId = some "p1") ∧
    ((mapGet (gmRun GameManager.empty
        [GMAction.create "p1" "Alice" "AAAA" { r := 1, g := 2, b := 3 },
         GMAction.create "p2" "Bob" "AAAA" { r := 4, g := 5, b := 6 }]).rooms
        "AAAA").map Room.hostId = some "p2") ∧
    (gmRun GameManager.empty
        [GMAction.create "p1" "Alice" "AAAA" { r := 1, g := 2, b := 3 },
         GMAction.create "p2" "Bob" "AAAA" { r := 4, g := 5, b := 6 }]).rooms.length
      = 1 ∧
    mapGet (gmRun GameManager.empty
        [GMAction.create "p1" "Alice" "AAAA" { r := 1, g := 2, b := 3 },
         GMAction.create "p2" "Bob" "AAAA" { r := 4, g := 5, b := 6 }]).playerRooms
        "p1" = some "AAAA" := by
  refine ⟨?_, ?_, ?_, ?_⟩ <;> decide

/-- C6 amended: the codes of the rooms in the coordinator's registry are
pairwise distinct at all times — but only because the registry is a keyed
map; createRoom performs no collision check, so this does not mean a code is
never silently reused.  When the generated code is fresh (not held by any
active room), createRoom preserves every existing room, so no room is
displaced; on a collision it silently replaces the room (see the
counterexample). -/
theorem room_codes_distinct_amended :
    (∀ acts : List GMAction,
      ((gmRun GameManager.empty acts).rooms.map Prod.fst).Nodup) ∧
    (∀ (gm : GameManager) (pid pname code : String) (t : Color),
      mapGet gm.rooms code = none →
      ∀ c' r', mapGet gm.rooms c' = some r' →
        mapGet (gm.createRoom pid pname code t).1.rooms c' = some r') := by
  refine ⟨gmRun_rooms_keys_nodup, ?_⟩
  intro gm pid pname code t hfresh c' r' hr'
  unfold GameManager.createRoom
  dsimp only
  by_cases hc : c' = code
  · rw [hc] at hr'
    rw [hfresh] at hr'
    cases hr'
  · rw [mapGet_set_ne _ _ hc]
    exact hr'

/-- C6 amended witness: after creating room "AAAA", a second createRoom with
the fresh code "BBBB" leaves Alice's room in place. -/
theorem room_codes_distinct_amended_witness :
    mapGet ((gmRun GameManager.empty
        [GMAction.create "p1" "Alice" "AAAA" { r := 1, g := 2, b := 3 }]).createRoom
        "p2" "Bob" "BBBB" { r := 4, g := 5, b := 6 }).1.rooms "AAAA" =
      some (Room.create "AAAA" "p1" "Alice" { r := 1, g := 2, b := 3 }) :=
  room_codes_distinct_amended.2
    (gmRun GameManager.empty
      [GMAction.create "p1" "Alice" "AAAA" { r := 1, g := 2, b := 3 }])
    "p2" "Bob" "BBBB" { r := 4, g := 5, b := 6 } (by decide) "AAAA"
    (Room.create "AAAA" "p1" "Alice" { r := 1, g := 2, b := 3 }) (by decide)

/-- Lookup succeeds exactly on the stored keys. -/
theorem mapGet_isSome_iff_mem_keys {α : Type} (m : List (String × α)) (q : String) :
    (mapGet m q).isSome ↔ q ∈ m.map Prod.fst := by
  induction m with
  | nil => simp [mapGet]
  | cons e rest ih =>
    obtain ⟨k0, v0⟩ := e
    by_cases hk : k0 = q
    · simp [mapGet, hk]
    · simp [mapGet, hk, ih, Ne.symm hk]

/-- Lookup in a map after `mapSet` succeeds for the new key and the old keys. -/
theorem mapGet_set_isSome {α : Type} (m : List (String × α)) (k q : String) (v : α) :
    (mapGet (mapSet m k v) q).isSome ↔ (q = k ∨ (mapGet m q).isSome) := by
  by_cases hq : q = k
  · subst hq
    simp [mapGet_set_self]
  · rw [mapGet_set_ne _ _ hq]
    simp [hq]

/-- Lookup in a map after `mapDelete` succeeds for the surviving keys. -/
theorem mapGet_delete_isSome {α : Type} (m : List (String × α)) (k q : String) :
    (mapGet (mapDelete m k) q).isSome ↔ (q ≠ k ∧ (mapGet m q).isSome) := by
  by_cases hq : q = k
  · subst hq
    simp [mapGet_delete_self]
  · rw [mapGet_delete_ne _ hq]
    simp [hq]

/-- An empty deletion result means every other key was already absent. -/
theorem mapDelete_eq_nil_get {α : Type} {m : List (String × α)} {k q : String}
    (h : mapDelete m k = []) (hq : q ≠ k) : mapGet m q = none := by
  induction m with
  | nil => rfl
  | cons e rest ih =>
    obtain ⟨k0, v0⟩ := e
    by_cases hk : k0 = k
    · subst hk
      have h' : mapDelete rest k0 = [] := by
        simpa [mapDelete, List.filter_cons] using h
      rw [mapGet, if_neg (fun hh => hq hh.symm)]
      exact ih h'
    · exfalso
      simp [mapDelete, List.filter_cons, hk] at h

/-- Room.removePlayer keeps exactly the keys of the deletion (the host
transfer only rewrites the first surviving value). -/
theorem removePlayer_keys (room : Room) (pid : String) :
    (room.removePlayer pid).players.map Prod.fst =
      (mapDelete room.players pid).map Prod.fst := by
  unfold Room.removePlayer
  dsimp only
  split_ifs with hcond
  · cases hdel : mapDelete room.players pid with
    | nil => simp [hdel]
    | cons e rest => cases e; simp [hdel]
  · rfl

/-- Membership in the players of a room after removePlayer. -/
theorem removePlayer_get_isSome (room : Room) (pid q : String) :
    (mapGet (room.removePlayer pid).players q).isSome ↔
      (q ≠ pid ∧ (mapGet room.players q).isSome) := by
  rw [mapGet_isSome_iff_mem_keys, removePlayer_keys,
    ← mapGet_isSome_iff_mem_keys, mapGet_delete_isSome]

/-- The room built by the constructor holds exactly its host. -/
theorem create_players_get_isSome (code pid pname : String) (t : Color) (q : String) :
    (mapGet (Room.create code pid pname t).players q).isSome ↔ q = pid := by
  show (mapGet (mapSet [] pid _) q).isSome ↔ q = pid
  rw [mapGet_set_isSome]
  simp [mapGet]

/-- Membership in the players of a room after addPlayer. -/
theorem addPlayer_get_isSome (room : Room) (pid pname q : String) :
    (mapGet (room.addPlayer pid pname).1.players q).isSome ↔
      (q = pid ∨ (mapGet room.players q).isSome) := by
  show (mapGet (mapSet room.players pid _) q).isSome ↔ _
  rw [mapGet_set_isSome]

/-- The reverse index of the coordinator agrees with room membership: a player
is indexed to a code exactly when the room stored under that code holds them. -/
def indexAgrees (gm : GameManager) : Prop :=
  ∀ p c, mapGet gm.playerRooms p = some c ↔
    (∃ room, mapGet gm.rooms c = some room ∧ (mapGet room.players p).isSome)

/-- createRoom preserves index agreement when the creator is not in any room
and the generated code is fresh. -/
theorem indexAgrees_createRoom (gm : GameManager) (pid pname code : String)
    (t : Color) (hinv : indexAgrees gm)
    (hpid : mapGet gm.playerRooms pid = none)
    (hcode : mapGet gm.rooms code = none) :
    indexAgrees (gm.createRoom pid pname code t).1 := by
  intro p c
  unfold GameManager.createRoom
  dsimp only
  by_cases hp : p = pid
  · subst hp
    rw [mapGet_set_self]
    constructor
    · intro h
      injection h with h
      subst h
      exact ⟨Room.create code p pname t, mapGet_set_self _ _ _,
        (create_players_get_isSome code p pname t p).mpr rfl⟩
    · rintro ⟨room, hroom, hmem⟩
      by_cases hc : c = code
      · rw [hc]
      · rw [mapGet_set_ne _ _ hc] at hroom
        have := (hinv p c).mpr ⟨room, hroom, hmem⟩
        rw [hpid] at this
        cases this
  · rw [mapGet_set_ne _ _ hp]
    constructor
    · intro h
      obtain ⟨room, hroom, hmem⟩ := (hinv p c).mp h
      by_cases hc : c = code
      · rw [hc, hcode] at hroom
        cases hroom
      · exact ⟨room, by rw [mapGet_set_ne _ _ hc]; exact hroom, hmem⟩
    · rintro ⟨room, hroom, hmem⟩
      by_cases hc : c = code
      · rw [hc, mapGet_set_self] at hroom
        injection hroom with h
        subst h
        exact absurd ((create_players_get_isSome code pid pname t p).mp hmem) hp
      · rw [mapGet_set_ne _ _ hc] at hroom
        exact (hinv p c).mpr ⟨room, hroom, hmem⟩

/-- joinRoom with an explicit room code preserves index agreement when the
joining player is not in any room. -/
theorem indexAgrees_joinCode (gm : GameManager) (pid pname code fresh : String)
    (t : Color) (hinv : indexAgrees gm)
    (hpid : mapGet gm.playerRooms pid = none) :
    indexAgrees (gm.joinRoom pid pname (some code) fresh t).1 := by
  unfold GameManager.joinRoom
  dsimp only
  cases hm : mapGet gm.rooms code with
  | none => simp only [hm]; exact hinv
  | some room =>
    simp only [hm]
    split_ifs with h4 hw
    · exact hinv
    · exact hinv
    · intro p c
      dsimp only
      by_cases hp : p = pid
      · subst hp
        rw [mapGet_set_self]
        constructor
        · intro h
          injection h with h
          subst h
          exact ⟨(room.addPlayer p pname).1, mapGet_set_self _ _ _,
            (addPlayer_get_isSome room p pname p).mpr (Or.inl rfl)⟩
        · rintro ⟨room2, hroom2, hmem⟩
          by_cases hc : c = code
          · rw [hc]
          · rw [mapGet_set_ne _ _ hc] at hroom2
            have := (hinv p c).mpr ⟨room2, hroom2, hmem⟩
            rw [hpid] at this
            cases this
      · rw [mapGet_set_ne _ _ hp]
        constructor
        · intro h
          obtain ⟨room2, hroom2, hmem⟩ := (hinv p c).mp h
          by_cases hc : c = code
          · rw [hc, hm] at hroom2
            injection hroom2 with h2
            subst h2
            refine ⟨(room.addPlayer pid pname).1, ?_, ?_⟩
            · rw [hc]
              exact mapGet_set_self _ _ _
            · exact (addPlayer_get_isSome room pid pname p).mpr (Or.inr hmem)
          · exact ⟨room2, by rw [mapGet_set_ne _ _ hc]; exact hroom2, hmem⟩
        · rintro ⟨room2, hroom2, hmem⟩
          by_cases hc : c = code
          · rw [hc, mapGet_set_self] at hroom2
            injection hroom2 with h2
            subst h2
            rcases (addPlayer_get_isSome room pid pname p).mp hmem with h' | h'
            · exact absurd h' hp
            · exact (hinv p c).mpr ⟨room, by rw [hc]; exact hm, h'⟩
          · rw [mapGet_set_ne _ _ hc] at hroom2
            exact (hinv p c).mpr ⟨room2, hroom2, hmem⟩

/-- removePlayer preserves index agreement unconditionally. -/
theorem indexAgrees_remove (gm : GameManager) (pid : String)
    (hinv : indexAgrees gm) : indexAgrees (gm.removePlayer pid) := by
  unfold GameManager.removePlayer
  cases hi : mapGet gm.playerRooms pid with
  | none => simp only [hi]; exact hinv
  | some code =>
    simp only [hi]
    cases hr : mapGet gm.rooms code with
    | none => simp only [hr]; exact hinv
    | some room =>
      simp only [hr]
      intro p c
      by_cases hp : p = pid
      · subst hp
        split_ifs with hempty
        · dsimp only
          rw [mapGet_delete_self]
          constructor
          · intro h; cases h
          · rintro ⟨room2, hroom2, hmem⟩
            by_cases hc : c = code
            · rw [hc, mapGet_delete_self] at hroom2
              cases hroom2
            · rw [mapGet_delete_ne _ hc] at hroom2
              have := (hinv p c).mpr ⟨room2, hroom2, hmem⟩
              rw [hi] at this
              injection this with h2
              exact (hc h2.symm).elim
        · dsimp only
          rw [mapGet_delete_self]
          constructor
          · intro h; cases h
          · rintro ⟨room2, hroom2, hmem⟩
            by_cases hc : c = code
            · rw [hc, mapGet_set_self] at hroom2
              injection hroom2 with h2
              subst h2
              have := (removePlayer_get_isSome room p p).mp hmem
              exact (this.1 rfl).elim
            · rw [mapGet_set_ne _ _ hc] at hroom2
              have := (hinv p c).mpr ⟨room2, hroom2, hmem⟩
              rw [hi] at this
              injection this with h2
              exact (hc h2.symm).elim
      · split_ifs with hempty
        · dsimp only
          rw [mapGet_delete_ne _ hp]
          constructor
          · intro h
            obtain ⟨room2, hroom2, hmem⟩ := (hinv p c).mp h
            by_cases hc : c = code
            · exfalso
              rw [hc, hr] at hroom2
              injection hroom2 with h2
              subst h2
              have hplayers : mapDelete room.players pid = [] := by
                have hkeys := removePlayer_keys room pid
                have hlen : (room.removePlayer pid).players = [] :=
                  List.length_eq_zero.mp hempty
                rw [hlen] at hkeys
                cases hdel : mapDelete room.players pid with
                | nil => rfl
                | cons e rest => rw [hdel] at hkeys; cases hkeys
              have := mapDelete_eq_nil_get hplayers hp
              rw [this] at hmem
              cases hmem
            · refine ⟨room2, ?_, hmem⟩
              rw [mapGet_delete_ne _ hc]
              exact hroom2
          · rintro ⟨room2, hroom2, hmem⟩
            by_cases hc : c = code
            · rw [hc, mapGet_delete_self] at hroom2
              cases hroom2
            · rw [mapGet_delete_ne _ hc] at hroom2
              exact (hinv p c).mpr ⟨room2, hroom2, hmem⟩
        · dsimp only
          rw [mapGet_delete_ne _ hp]
          constructor
          · intro h
            obtain ⟨room2, hroom2, hmem⟩ := (hinv p c).mp h
            by_cases hc : c = code
            · rw [hc, hr] at hroom2
              injection hroom2 with h2
              subst h2
              refine ⟨room.removePlayer pid, ?_, ?_⟩
              · rw [hc]
                exact mapGet_set_self _ _ _
              · exact (removePlayer_get_isSome room pid p).mpr ⟨hp, hmem⟩
            · refine ⟨room2, ?_, hmem⟩
              rw [mapGet_set_ne _ _ hc]
              exact hroom2
          · rintro ⟨room2, hroom2, hmem⟩
            by_cases hc : c = code
            · rw [hc, mapGet_set_self] at hroom2
              injection hroom2 with h2
              subst h2
              have h3 := (removePlayer_get_isSome room pid p).mp hmem
              exact (hinv p c).mpr ⟨room, by rw [hc]; exact hr, h3.2⟩
            · rw [mapGet_set_ne _ _ hc] at hroom2
              exact (hinv p c).mpr ⟨room2, hroom2, hmem⟩

/-- The first component of a no-code joinRoom is either a join into the found
room or the createRoom fallback. -/
theorem joinRoom_none_fst (gm : GameManager) (pid pname fresh : String) (t : Color) :
    (gm.joinRoom pid pname none fresh t).1 =
      match gm.findAvailableRoom with
      | some code => (gm.joinRoom pid pname (some code) fresh t).1
      | none => (gm.createRoom pid pname fresh t).1 := by
  unfold GameManager.joinRoom
  cases gm.findAvailableRoom <;> rfl

/-- One guarded coordinator step preserves index agreement. -/
theorem indexAgrees_step (gm : GameManager) (a : GMAction)
    (hinv : indexAgrees gm) (hok : okAction gm a) :
    indexAgrees (gmStep gm a) := by
  cases a with
  | create pid pname code t =>
    exact indexAgrees_createRoom gm pid pname code t hinv hok.1 hok.2
  | join pid pname rc fresh t =>
    rcases rc with _ | code
    · show indexAgrees (gm.joinRoom pid pname none fresh t).1
      rw [joinRoom_none_fst]
      cases hf : gm.findAvailableRoom with
      | some code => exact indexAgrees_joinCode gm pid pname code fresh t hinv hok.1
      | none => exact indexAgrees_createRoom gm pid pname fresh t hinv hok.1 (hok.2 rfl)
    · exact indexAgrees_joinCode gm pid pname code fresh t hinv hok.1
  | remove pid => exact indexAgrees_remove gm pid hinv

/-- A guarded run from the empty coordinator keeps the index agreeing with
room membership. -/
theorem indexAgrees_run (acts : List GMAction)
    (hg : guardedFrom GameManager.empty acts) :
    indexAgrees (gmRun GameManager.empty acts) := by
  suffices h : ∀ gm, indexAgrees gm → guardedFrom gm acts →
      indexAgrees (gmRun gm acts) by
    refine h GameManager.empty ?_ hg
    intro p c
    constructor
    · intro hx; cases hx
    · rintro ⟨room, hroom, -⟩; cases hroom
  clear hg
  induction acts with
  | nil => intro gm h _; exact h
  | cons a rest ih =>
    intro gm h hg
    exact ih (gmStep gm a) (indexAgrees_step gm a h hg.1) hg.2

/-- C7 counterexample: the claim asserts that after any createRoom / joinRoom /
removePlayer sequence a player id is held by at most one room and the reverse
index agrees with room membership.  But nothing stops a player who is already
in a room from joining another: after p1 creates room "AAAA", p2 creates room
"BBBB", and p1 joins "BBBB", the player p1 is in the players maps of both
active rooms, while the reverse index points only at "BBBB" (so it also
disagrees with membership in "AAAA"). -/
theorem player_in_two_rooms_counterexample :
    ((mapGet (gmRun GameManager.empty
        [GMAction.create "p1" "Alice" "AAAA" { r := 1, g := 2, b := 3 },
         GMAction.create "p2" "Bob" "BBBB" { r := 4, g := 5, b := 6 },
         GMAction.join "p1" "Alice" (some "BBBB") "ZZZZ" { r := 0, g := 0, b := 0 }]).rooms
        "AAAA").map (fun r => (mapGet r.players "p1").isSome) = some true) ∧
    ((mapGet (gmRun GameManager.empty
        [GMAction.create "p1" "Alice" "AAAA" { r := 1, g := 2, b := 3 },
         GMAction.create "p2" "Bob" "BBBB" { r := 4, g := 5, b := 6 },
         GMAction.join "p1" "Alice" (some "BBBB") "ZZZZ" { r := 0, g := 0, b := 0 }]).rooms
        "BBBB").map (fun r => (mapGet r.players "p1").isSome) = some true) ∧
    ("AAAA" : String) ≠ "BBBB" ∧
    mapGet (gmRun GameManager.empty
        [GMAction.create "p1" "Alice" "AAAA" { r := 1, g := 2, b := 3 },
         GMAction.create "p2" "Bob" "BBBB" { r := 4, g := 5, b := 6 },
         GMAction.join "p1" "Alice" (some "BBBB") "ZZZZ" { r := 0, g := 0, b := 0 }]).playerRooms
        "p1" = some "BBBB" := by
  refine ⟨?_, ?_, ?_, ?_⟩ <;> decide

/-- C7 amended: along every guarded operation sequence — one in which no
player creates or joins a room while already indexed to a room, and generated
codes are fresh — a player id is held by at most one active room's player map,
and the player-to-room reverse index agrees exactly with room membership.
Unguarded sequences can violate this (see the counterexample): joinRoom never
removes the joining player from their previous room. -/
theorem player_in_single_room_guarded (acts : List GMAction)
    (hg : guardedFrom GameManager.empty acts) :
    (∀ p c1 c2 r1 r2,
      mapGet (gmRun GameManager.empty acts).rooms c1 = some r1 →
      mapGet (gmRun GameManager.empty acts).rooms c2 = some r2 →
      (mapGet r1.players p).isSome → (mapGet r2.players p).isSome →
      c1 = c2) ∧
    indexAgrees (gmRun GameManager.empty acts) := by
  have hinv := indexAgrees_run acts hg
  refine ⟨?_, hinv⟩
  intro p c1 c2 r1 r2 h1 h2 hm1 hm2
  have e1 := (hinv p c1).mpr ⟨r1, h1, hm1⟩
  have e2 := (hinv p c2).mpr ⟨r2, h2, hm2⟩
  rw [e1] at e2
  injection e2

/-- C7 witness: the amended theorem instantiated on the guarded trace in which
p1 creates "AAAA", p2 joins it, and p1 leaves. -/
theorem player_in_single_room_guarded_witness :
    (∀ p c1 c2 r1 r2,
      mapGet (gmRun GameManager.empty
        [GMAction.create "p1" "Alice" "AAAA" { r := 1, g := 2, b := 3 },
         GMAction.join "p2" "Bob" (some "AAAA") "ZZZZ" { r := 0, g := 0, b := 0 },
         GMAction.remove "p1"]).rooms c1 = some r1 →
      mapGet (gmRun GameManager.empty
        [GMAction.create "p1" "Alice" "AAAA" { r := 1, g := 2, b := 3 },
         GMAction.join "p2" "Bob" (some "AAAA") "ZZZZ" { r := 0, g := 0, b := 0 },
         GMAction.remove "p1"]).rooms c2 = some r2 →
      (mapGet r1.players p).isSome → (mapGet r2.players p).isSome →
      c1 = c2) ∧
    indexAgrees (gmRun GameManager.empty
      [GMAction.create "p1" "Alice" "AAAA" { r := 1, g := 2, b := 3 },
       GMAction.join "p2" "Bob" (some "AAAA") "ZZZZ" { r := 0, g := 0, b := 0 },
       GMAction.remove "p1"]) :=
  player_in_single_room_guarded
    [GMAction.create "p1" "Alice" "AAAA" { r := 1, g := 2, b := 3 },
     GMAction.join "p2" "Bob" (some "AAAA") "ZZZZ" { r := 0, g := 0, b := 0 },
     GMAction.remove "p1"] (by decide)

/-- jround is monotone. -/
theorem jround_mono : Monotone jround := by
  intro a b hab
  unfold jround
  exact Int.floor_le_floor (by linarith)

/-- hue2rgb on the rising segment [0, 1/6). -/
theorem hue2rgb_rising {p q t : ℚ} (h0 : 0 ≤ t) (h1 : t < 1/6) :
    hue2rgb p q t = p + (q - p) * 6 * t := by
  unfold hue2rgb
  dsimp only
  rw [if_neg (show ¬ t < 0 by linarith)]
  rw [if_neg (show ¬ t > 1 by linarith)]
  rw [if_pos h1]

/-- hue2rgb on the top plateau [1/6, 1/2). -/
theorem hue2rgb_top {p q t : ℚ} (h0 : 1/6 ≤ t) (h1 : t < 1/2) :
    hue2rgb p q t = q := by
  unfold hue2rgb
  dsimp only
  rw [if_neg (show ¬ t < 0 by linarith)]
  rw [if_neg (show ¬ t > 1 by linarith)]
  rw [if_neg (show ¬ t < 1/6 by linarith)]
  rw [if_pos h1]

/-- hue2rgb on the falling segment [1/2, 2/3). -/
theorem hue2rgb_falling {p q t : ℚ} (h0 : 1/2 ≤ t) (h1 : t < 2/3) :
    hue2rgb p q t = p + (q - p) * (2/3 - t) * 6 := by
  unfold hue2rgb
  dsimp only
  rw [if_neg (show ¬ t < 0 by linarith)]
  rw [if_neg (show ¬ t > 1 by linarith)]
  rw [if_neg (show ¬ t < 1/6 by linarith)]
  rw [if_neg (show ¬ t < 1/2 by linarith)]
  rw [if_pos h1]

/-- hue2rgb on the bottom plateau [2/3, 1]. -/
theorem hue2rgb_bottom {p q t : ℚ} (h0 : 2/3 ≤ t) (h1 : t ≤ 1) :
    hue2rgb p q t = p := by
  unfold hue2rgb
  dsimp only
  rw [if_neg (show ¬ t < 0 by linarith)]
  rw [if_neg (show ¬ t > 1 by linarith)]
  rw [if_neg (show ¬ t < 1/6 by linarith)]
  rw [if_neg (show ¬ t < 1/2 by linarith)]
  rw [if_neg (show ¬ t < 2/3 by linarith)]

/-- hue2rgb on [-1/3, 0): wraps by +1 into the bottom plateau. -/
theorem hue2rgb_neg {p q t : ℚ} (h0 : -(1/3) ≤ t) (h1 : t < 0) :
    hue2rgb p q t = p := by
  unfold hue2rgb
  dsimp only
  rw [if_pos h1]
  rw [if_neg (show ¬ t + 1 > 1 by linarith)]
  rw [if_neg (show ¬ t + 1 < 1/6 by linarith)]
  rw [if_neg (show ¬ t + 1 < 1/2 by linarith)]
  rw [if_neg (show ¬ t + 1 < 2/3 by linarith)]

/-- hue2rgb on [1, 7/6): t = 1 sits on the bottom plateau, t > 1 wraps by -1
into the rising segment; both match the shifted rising formula. -/
theorem hue2rgb_wrap_rising {p q t : ℚ} (h0 : 1 ≤ t) (h1 : t < 7/6) :
    hue2rgb p q t = p + (q - p) * 6 * (t - 1) := by
  rcases eq_or_lt_of_le h0 with heq | hlt
  · rw [← heq, hue2rgb_bottom (by norm_num) (by norm_num)]
    ring
  · unfold hue2rgb
    dsimp only
    rw [if_neg (show ¬ t < 0 by linarith)]
    rw [if_pos (show t > 1 from hlt)]
    rw [if_pos (show t - 1 < 1/6 by linarith)]

/-- hue2rgb on [7/6, 4/3): wraps by -1 into the top plateau. -/
theorem hue2rgb_wrap_top {p q t : ℚ} (h0 : 7/6 ≤ t) (h1 : t < 4/3) :
    hue2rgb p q t = q := by
  unfold hue2rgb
  dsimp only
  rw [if_neg (show ¬ t < 0 by linarith)]
  rw [if_pos (show t > 1 by linarith)]
  rw [if_neg (show ¬ t - 1 < 1/6 by linarith)]
  rw [if_pos (show t - 1 < 1/2 by linarith)]

/-- The three sampled hue2rgb channels always have maximum q and minimum p:
case analysis over the six hue sectors. -/
theorem hue2rgb_max_min (p q hn : ℚ) (hpq : p ≤ q) (h0 : 0 ≤ hn) (h1 : hn < 1) :
    max (max (hue2rgb p q (hn + 1/3)) (hue2rgb p q hn)) (hue2rgb p q (hn - 1/3)) = q ∧
    min (min (hue2rgb p q (hn + 1/3)) (hue2rgb p q hn)) (hue2rgb p q (hn - 1/3)) = p := by
  have hqp : 0 ≤ q - p := by linarith
  rcases lt_or_le hn (1/6) with hs0 | hrest
  · -- sector 0: channels (q, rising, p)
    rw [hue2rgb_top (by linarith) (by linarith),
      hue2rgb_rising (by linarith) (by linarith),
      hue2rgb_neg (by linarith) (by linarith)]
    have hm0 : p ≤ p + (q - p) * 6 * hn := by nlinarith
    have hm1 : p + (q - p) * 6 * hn ≤ q := by nlinarith
    rw [max_eq_left hm1, max_eq_left hpq, min_eq_right hm1, min_eq_right hm0]
    exact ⟨rfl, rfl⟩
  rcases lt_or_le hn (2/6) with hs1 | hrest
  · -- sector 1: channels (falling, q, p)
    rw [hue2rgb_falling (by linarith) (by linarith),
      hue2rgb_top (by linarith) (by linarith),
      hue2rgb_neg (by linarith) (by linarith)]
    have hm0 : p ≤ p + (q - p) * (2/3 - (hn + 1/3)) * 6 := by nlinarith
    have hm1 : p + (q - p) * (2/3 - (hn + 1/3)) * 6 ≤ q := by nlinarith
    rw [max_eq_right hm1, max_eq_left hpq, min_eq_left hm1, min_eq_right hm0]
    exact ⟨rfl, rfl⟩
  rcases lt_or_le hn (3/6) with hs2 | hrest
  · -- sector 2: channels (p, q, rising)
    rw [hue2rgb_bottom (by linarith) (by linarith),
      hue2rgb_top (by linarith) (by linarith),
      hue2rgb_rising (by linarith) (by linarith)]
    have hm0 : p ≤ p + (q - p) * 6 * (hn - 1/3) := by nlinarith
    have hm1 : p + (q - p) * 6 * (hn - 1/3) ≤ q := by nlinarith
    rw [max_eq_right hpq, max_eq_left hm1, min_eq_left hpq, min_eq_left hm0]
    exact ⟨rfl, rfl⟩
  rcases lt_or_le hn (4/6) with hs3 | hrest
  · -- sector 3: channels (p, falling, q)
    rw [hue2rgb_bottom (by linarith) (by linarith),
      hue2rgb_falling (by linarith) (by linarith),
      hue2rgb_top (by linarith) (by linarith)]
    have hm0 : p ≤ p + (q - p) * (2/3 - hn) * 6 := by nlinarith
    have hm1 : p + (q - p) * (2/3 - hn) * 6 ≤ q := by nlinarith
    rw [max_eq_right hm0, max_eq_right hm1, min_eq_left hm0, min_eq_left hpq]
    exact ⟨rfl, rfl⟩
  rcases lt_or_le hn (5/6) with hs4 | hrest
  · -- sector 4: channels (wrap-rising, p, q)
    rw [hue2rgb_wrap_rising (by linarith) (by linarith),
      hue2rgb_bottom (by linarith) (by linarith),
      hue2rgb_top (by linarith) (by linarith)]
    have hm0 : p ≤ p + (q - p) * 6 * (hn + 1/3 - 1) := by nlinarith
    have hm1 : p + (q - p) * 6 * (hn + 1/3 - 1) ≤ q := by nlinarith
    rw [max_eq_left hm0, max_eq_right hm1, min_eq_right hm0, min_eq_left hpq]
    exact ⟨rfl, rfl⟩
  · -- sector 5: channels (q, p, falling)
    rw [hue2rgb_wrap_top (by linarith) (by linarith),
      hue2rgb_bottom (by linarith) (by linarith),
      hue2rgb_falling (by linarith) (by linarith)]
    have hm0 : p ≤ p + (q - p) * (2/3 - (hn - 1/3)) * 6 := by nlinarith
    have hm1 : p + (q - p) * (2/3 - (hn - 1/3)) * 6 ≤ q := by nlinarith
    rw [max_eq_left hpq, max_eq_left hm1, min_eq_right hpq, min_eq_left hm0]
    exact ⟨rfl, rfl⟩

/-- The lightness component of rgbToHsl, rewritten over the integer max and
min of the channels (both branches of the achromatic test produce the same
lightness expression). -/
theorem rgbToHsl_l_eq (r g b : ℤ) :
    (rgbToHsl r g b).l =
      jround ((((max (max r g) b : ℤ) : ℚ) + ((min (min r g) b : ℤ) : ℚ))
        * 10 / 51) := by
  have hmax : max (max ((r:ℚ)/255) ((g:ℚ)/255)) ((b:ℚ)/255)
      = ((max (max r g) b : ℤ) : ℚ) / 255 := by
    rw [max_div_div_right (by norm_num : (0:ℚ) ≤ 255),
      max_div_div_right (by norm_num : (0:ℚ) ≤ 255)]
    push_cast
    rfl
  have hmin : min (min ((r:ℚ)/255) ((g:ℚ)/255)) ((b:ℚ)/255)
      = ((min (min r g) b : ℤ) : ℚ) / 255 := by
    rw [min_div_div_right (by norm_num : (0:ℚ) ≤ 255),
      min_div_div_right (by norm_num : (0:ℚ) ≤ 255)]
    push_cast
    rfl
  unfold rgbToHsl
  dsimp only
  split_ifs <;>
    · dsimp only
      rw [hmax, hmin]
      congr 1
      ring

/-- Round-tripped lightness stays within ±1 for any chromatic hslToRgb output:
the integer channel max/min are the roundings of 255q and 255p, whose sum is
within 1 of 510·ln, and the final rounding adds at most 1/2. -/
theorem chromatic_l_bound (p q ln hn : ℚ) (hpq : p ≤ q)
    (hsum : p + q = 2 * ln) (hhn0 : 0 ≤ hn) (hhn1 : hn < 1) :
    |((rgbToHsl (jround (hue2rgb p q (hn + 1/3) * 255))
        (jround (hue2rgb p q hn * 255))
        (jround (hue2rgb p q (hn - 1/3) * 255))).l : ℚ) - ln * 100| ≤ 1 := by
  obtain ⟨hmax, hmin⟩ := hue2rgb_max_min p q hn hpq hhn0 hhn1
  rw [rgbToHsl_l_eq]
  have hmaxI : max (max (jround (hue2rgb p q (hn + 1/3) * 255))
        (jround (hue2rgb p q hn * 255))) (jround (hue2rgb p q (hn - 1/3) * 255))
      = jround (q * 255) := by
    rw [← jround_mono.map_max, ← jround_mono.map_max]
    congr 1
    rw [← max_mul_of_nonneg _ _ (by norm_num : (0:ℚ) ≤ 255),
      ← max_mul_of_nonneg _ _ (by norm_num : (0:ℚ) ≤ 255), hmax]
  have hminI : min (min (jround (hue2rgb p q (hn + 1/3) * 255))
        (jround (hue2rgb p q hn * 255))) (jround (hue2rgb p q (hn - 1/3) * 255))
      = jround (p * 255) := by
    rw [← jround_mono.map_min, ← jround_mono.map_min]
    congr 1
    rw [← min_mul_of_nonneg _ _ (by norm_num : (0:ℚ) ≤ 255),
      ← min_mul_of_nonneg _ _ (by norm_num : (0:ℚ) ≤ 255), hmin]
  rw [hmaxI, hminI]
  have hA1 := jround_le (q * 255)
  have hA2 := lt_jround (q * 255)
  have hB1 := jround_le (p * 255)
  have hB2 := lt_jround (p * 255)
  have hX1 := jround_le
    ((((jround (q * 255) : ℤ) : ℚ) + ((jround (p * 255) : ℤ) : ℚ)) * 10 / 51)
  have hX2 := lt_jround
    ((((jround (q * 255) : ℤ) : ℚ) + ((jround (p * 255) : ℤ) : ℚ)) * 10 / 51)
  rw [abs_le]
  constructor <;> linarith

/-- Round-tripped lightness stays within ±1 for any achromatic hslToRgb
output (all three channels equal). -/
theorem gray_l_bound (ln : ℚ) :
    |((rgbToHsl (jround (ln * 255)) (jround (ln * 255)) (jround (ln * 255))).l : ℚ)
      - ln * 100| ≤ 1 := by
  rw [rgbToHsl_l_eq, max_self, max_self, min_self, min_self]
  have hA1 := jround_le (ln * 255)
  have hA2 := lt_jround (ln * 255)
  have hX1 := jround_le
    ((((jround (ln * 255) : ℤ) : ℚ) + ((jround (ln * 255) : ℤ) : ℚ)) * 10 / 51)
  have hX2 := lt_jround
    ((((jround (ln * 255) : ℤ) : ℚ) + ((jround (ln * 255) : ℤ) : ℚ)) * 10 / 51)
  rw [abs_le]
  constructor <;> linarith

/-- C9 amended: for every valid HSL input (h in [0,360), s and l in [0,100]),
converting with hslToRgb and back with rgbToHsl returns a lightness within ±1
of the original; the hue and saturation components do not round-trip within
±1 in general (see the counterexample). -/
theorem hsl_roundtrip_l_within_one (h s l : ℚ)
    (hh0 : 0 ≤ h) (hh1 : h < 360) (hs0 : 0 ≤ s) (hs1 : s ≤ 100)
    (hl0 : 0 ≤ l) (hl1 : l ≤ 100) :
    |((rgbToHsl (hslToRgb h s l).r (hslToRgb h s l).g (hslToRgb h s l).b).l : ℚ)
      - l| ≤ 1 := by
  have h100 : l / 100 * 100 = l := by ring
  by_cases hsz : s / 100 = 0
  · have hch : hslToRgb h s l =
        { r := jround (l / 100 * 255), g := jround (l / 100 * 255),
          b := jround (l / 100 * 255) } := by
      unfold hslToRgb
      rw [if_pos hsz]
    rw [hch]
    have hb := gray_l_bound (l / 100)
    rw [h100] at hb
    exact hb
  · have hch : hslToRgb h s l =
        { r := jround (hue2rgb
            (2 * (l / 100) -
              (if l / 100 < 1/2 then l / 100 * (1 + s / 100)
               else l / 100 + s / 100 - l / 100 * (s / 100)))
            (if l / 100 < 1/2 then l / 100 * (1 + s / 100)
             else l / 100 + s / 100 - l / 100 * (s / 100))
            (h / 360 + 1/3) * 255),
          g := jround (hue2rgb
            (2 * (l / 100) -
              (if l / 100 < 1/2 then l / 100 * (1 + s / 100)
               else l / 100 + s / 100 - l / 100 * (s / 100)))
            (if l / 100 < 1/2 then l / 100 * (1 + s / 100)
             else l / 100 + s / 100 - l / 100 * (s / 100))
            (h / 360) * 255),
          b := jround (hue2rgb
            (2 * (l / 100) -
              (if l / 100 < 1/2 then l / 100 * (1 + s / 100)
               else l / 100 + s / 100 - l / 100 * (s / 100)))
            (if l / 100 < 1/2 then l / 100 * (1 + s / 100)
             else l / 100 + s / 100 - l / 100 * (s / 100))
            (h / 360 - 1/3) * 255) } := by
      unfold hslToRgb
      rw [if_neg hsz]
    have hpq : 2 * (l / 100) -
        (if l / 100 < 1/2 then l / 100 * (1 + s / 100)
         else l / 100 + s / 100 - l / 100 * (s / 100)) ≤
        (if l / 100 < 1/2 then l / 100 * (1 + s / 100)
         else l / 100 + s / 100 - l / 100 * (s / 100)) := by
      split_ifs with hlt
      · nlinarith
      · nlinarith
    have hb := chromatic_l_bound
      (2 * (l / 100) -
        (if l / 100 < 1/2 then l / 100 * (1 + s / 100)
         else l / 100 + s / 100 - l / 100 * (s / 100)))
      (if l / 100 < 1/2 then l / 100 * (1 + s / 100)
       else l / 100 + s / 100 - l / 100 * (s / 100))
      (l / 100) (h / 360) hpq (by ring) (by positivity) (by linarith)
    rw [h100] at hb
    rw [hch]
    exact hb

/-- C9 counterexample: the round trip is not within ±1 on all valid inputs.
At (h, s, l) = (100, 0, 50) the forward conversion is the gray (128,128,128),
whose hue reads back as 0 — an error of 100 in h.  At (h, s, l) = (0, 50, 1)
the forward conversion is (4, 1, 1), whose saturation reads back as 60 — an
error of 10 in s.  (Lightness does round-trip; see the amended theorem.) -/
theorem hsl_roundtrip_counterexample :
    hslToRgb 100 0 50 = { r := 128, g := 128, b := 128 } ∧
    rgbToHsl 128 128 128 = { h := 0, s := 0, l := 50 } ∧
    ¬ (|((rgbToHsl (hslToRgb 100 0 50).r (hslToRgb 100 0 50).g
        (hslToRgb 100 0 50).b).h : ℚ) - 100| ≤ 1) ∧
    hslToRgb 0 50 1 = { r := 4, g := 1, b := 1 } ∧
    rgbToHsl 4 1 1 = { h := 0, s := 60, l := 1 } ∧
    ¬ (|((rgbToHsl (hslToRgb 0 50 1).r (hslToRgb 0 50 1).g
        (hslToRgb 0 50 1).b).s : ℚ) - 50| ≤ 1) := by
  have e1 : hslToRgb 100 0 50 = { r := 128, g := 128, b := 128 } := by
    unfold hslToRgb
    norm_num [jround]
  have e2 : rgbToHsl 128 128 128 = { h := 0, s := 0, l := 50 } := by
    unfold rgbToHsl
    norm_num [jround]
  have e4 : hslToRgb 0 50 1 = { r := 4, g := 1, b := 1 } := by
    unfold hslToRgb
    norm_num [jround, hue2rgb]
  have e5 : rgbToHsl 4 1 1 = { h := 0, s := 60, l := 1 } := by
    unfold rgbToHsl
    norm_num [jround, max_def, min_def]
  refine ⟨e1, e2, ?_, e4, e5, ?_⟩
  · rw [e1, e2]
    norm_num
  · rw [e4, e5]
    norm_num

/-- C9 witness: the amended lightness round-trip theorem instantiated at
(h, s, l) = (120, 80, 40). -/
theorem hsl_roundtrip_l_within_one_witness :
    |((rgbToHsl (hslToRgb 120 80 40).r (hslToRgb 120 80 40).g
        (hslToRgb 120 80 40).b).l : ℚ) - 40| ≤ 1 :=
  hsl_roundtrip_l_within_one 120 80 40 (by norm_num) (by norm_num) (by norm_num)
    (by norm_num) (by norm_num) (by norm_num)
